import Mathlib

/-!
Verification of the exopy_hqc_legacy instrument-driver library.

Each section shallowly embeds one piece of the Python source.  Machine
floats are idealised as rationals (`ℚ`) or reals (`ℝ`): every numeric
identity proved here is the exact-arithmetic content of the claim.
Instrument replies, which the drivers read over VISA or a DLL, enter the
embedding as explicit parameters (oracle values).
-/

/-! ## Alazar935x: samples-per-record rounding (claim C8)

`alazar935x.py`, `get_traces` (lines 142-147):

    postTriggerSamples = int(samplesPerSec*timeaftertrig)
    if postTriggerSamples % 32 == 0:
        postTriggerSamples = int(postTriggerSamples)
    else:
        postTriggerSamples = int((postTriggerSamples)/32 + 1)*32

`alazar935x_modified.py`, `get_demod` (lines 140-145) applies the same
rounding to `samplesPerTrace = int(samplesPerSec * max(startaftertrig+duration))`.
The argument `n` below is that integer product; `/` is Python-2 integer
division on nonnegative ints.
-/

namespace Alazar935x

/-- From get_traces: the rounded postTriggerSamples as a function of the
integer product `n = int(samplesPerSec*timeaftertrig)`. -/
def postTriggerSamples (n : ℕ) : ℕ :=
  if n % 32 = 0 then n else (n / 32 + 1) * 32

/-- From get_demod (alazar935x_modified.py): the rounded samplesPerRecord as a
function of `n = int(samplesPerSec * np.max(startaftertrig + duration))`. -/
def samplesPerRecordDemod (n : ℕ) : ℕ :=
  if n % 32 = 0 then n else (n / 32 + 1) * 32

end Alazar935x

/-! ## Cryomagnetics CS4: sweep-rate unit conversions (claim C5)

`cryomagnetics_cs4.py`, lines 145-159.  The setter divides a T/min rate by
`60 * field_current_ratio` before sending it in the RATE 0 command; the getter
multiplies the reply of the instrument by `60 * field_current_ratio`.
-/

namespace CS4

/-- Value sent to the instrument by the `field_sweep_rate` setter
(`rate /= 60 * self.field_current_ratio`). -/
def field_sweep_rate_sent (rate field_current_ratio : ℚ) : ℚ :=
  rate / (60 * field_current_ratio)

/-- Value returned by the `field_sweep_rate` getter from the reply of the
instrument to `RATE? 0` (`return rate * (60 * self.field_current_ratio)`). -/
def field_sweep_rate_read (reply field_current_ratio : ℚ) : ℚ :=
  reply * (60 * field_current_ratio)

end CS4

/-! ## SynthHD frequency setter and Keithley2000 function setter (claim C1)

`windfreaktech_synthHD_signal_generator.py`, `frequency` setter (110-124):

    unit = self.frequency_unit
    valueMHz = value*CONVERSION_FACTORS[unit][MHz]
    valueMHz_format = format(valueMHz, .4f)
    self.write(f + str(valueMHz_format))
    self.write(f?)
    result = float(self.read())
    if abs(result - valueMHz) > 10**-12:
        raise InstrIOError(mes)
    self.check_calibration()

`keithley_multimeters.py`, `Keithley2000.function` setter (79-85):

    self.write(format of: FUNCtion "value")
    if not(self.query(FUNCtion?)[1:-1].lower() == value.lower()):
        raise InstrIOError(Keithley2000: Failed to set function)

The replies of the instrument are oracle parameters.  The .4f format is
idealised as exact round-half-even to 4 decimal places on `ℚ`.
-/

namespace SynthHD

/-- Frequency units accepted by the driver (`CONVERSION_FACTORS` keys). -/
inductive FreqUnit
  | Hz
  | kHz
  | MHz
  | GHz
  deriving DecidableEq

/-- Conversion factor to MHz, from the module-level CONVERSION_FACTORS table. -/
def conversionToMHz : FreqUnit → ℚ
  | .Hz => 1 / 1000000
  | .kHz => 1 / 1000
  | .MHz => 1
  | .GHz => 1000

/-- Round-half-even as Python float formatting does, on exact rationals. -/
def pyRound (q : ℚ) : ℤ :=
  if q - ⌊q⌋ < 1 / 2 then ⌊q⌋
  else if 1 / 2 < q - ⌊q⌋ then ⌊q⌋ + 1
  else if ⌊q⌋ % 2 = 0 then ⌊q⌋ else ⌊q⌋ + 1

/-- Numeric payload of the .4f formatting of valueMHz: the value rounded
half-even to 4 decimal places. -/
def format4 (q : ℚ) : ℚ := (pyRound (q * 10000) : ℚ) / 10000

/-- From check_calibration (lines 198-209): raises iff the V reply flag is 0,
or the output is on and the p reply flag is 0. -/
def check_calibration_raises (vFlag : ℤ) (outputOn : Bool) (pFlag : ℤ) : Bool :=
  if vFlag = 0 then true
  else if outputOn then decide (pFlag = 0)
  else false

/-- Observable effect of one run of the frequency setter. -/
structure FreqSetEffect where
  /-- The MHz value written in the f command, after .4f formatting. -/
  writtenMHz : ℚ
  /-- Whether the run raises `InstrIOError`. -/
  raises : Bool

/-- The frequency setter.  The argument `result` is the reply of the
instrument to the f? query (parsed as a float, in MHz); `vFlag`, `outputOn`,
`pFlag` are the oracle inputs of the trailing check_calibration call. -/
def frequency_set (value : ℚ) (unit : FreqUnit) (result : ℚ)
    (vFlag : ℤ) (outputOn : Bool) (pFlag : ℤ) : FreqSetEffect :=
  let valueMHz := value * conversionToMHz unit
  { writtenMHz := format4 valueMHz
    raises :=
      if 1 / 10 ^ 12 < |result - valueMHz| then true
      else check_calibration_raises vFlag outputOn pFlag }

end SynthHD

namespace Keithley2000

/-- Observable effect of one run of the `function` setter. -/
structure FuncSetEffect where
  /-- The SCPI command written (FUNCtion "value"). -/
  written : String
  /-- Whether the run raises `InstrIOError`. -/
  raises : Bool

/-- The function setter.  The argument `reply` is the reply of the
instrument to the FUNCtion? query; reply[1:-1] is `(reply.drop 1).dropRight 1`. -/
def function_set (value reply : String) : FuncSetEffect :=
  { written := "FUNCtion \"" ++ value ++ "\""
    raises := !(((reply.drop 1).dropRight 1).toLower == value.toLower) }

end Keithley2000

/-! ## Keithley6221 waveform_amplitude property (claim C10)

In `keithley_multimeters.py` the class body of Keithley6221 executes, in
order:

* line 543: under the instrument_property decorator, a def of the name
  waveform_frequency whose body queries SOUR:WAVE:FREQ?;
* line 553: a def of the name waveform_frequency under the decorator
  waveform_frequency.setter (the frequency setter);
* line 568: under instrument_property, a def of the name waveform_amplitude
  whose body queries SOUR:WAVE:AMPL?;
* line 579: a def of the name waveform_amplitude under the decorator
  waveform_frequency.setter (not waveform_amplitude.setter).

A class body is a sequence of name bindings; prop.setter(f) returns a copy of
the property with the setter slot replaced and the getter slot kept.  The
model tags each getter and setter function with the SCPI message it issues.
-/

namespace Keithley6221

/-- A getter function of the class body, identified by the SCPI query its
body issues. -/
inductive GetterFn
  | waveformFrequencyGetter
  | waveformAmplitudeGetter
  deriving DecidableEq

/-- The SCPI query issued by each getter body. -/
def getterQuery : GetterFn → String
  | .waveformFrequencyGetter => "SOUR:WAVE:FREQ?"
  | .waveformAmplitudeGetter => "SOUR:WAVE:AMPL?"

/-- A setter function of the class body. -/
inductive SetterFn
  | waveformFrequencySetter
  | waveformAmplitudeSetter
  deriving DecidableEq

/-- A property descriptor: instrument_property subclasses the built-in
property, holding a getter and an optional setter. -/
structure PyProperty where
  fget : GetterFn
  fset : Option SetterFn
  deriving DecidableEq

/-- The decorator call prop.setter(f): a copy of prop whose setter slot is f
and whose getter slot is unchanged. -/
def setterDecorator (p : PyProperty) (f : SetterFn) : PyProperty :=
  { p with fset := some f }

/-- The decorator instrument_property applied to a getter function. -/
def instrumentProperty (g : GetterFn) : PyProperty :=
  { fget := g, fset := none }

/-- Line 543: binding of waveform_frequency to the frequency property. -/
def waveform_frequency_v1 : PyProperty :=
  instrumentProperty .waveformFrequencyGetter

/-- Line 553: waveform_frequency.setter rebinds waveform_frequency with the
frequency setter attached. -/
def waveform_frequency_v2 : PyProperty :=
  setterDecorator waveform_frequency_v1 .waveformFrequencySetter

/-- Line 568: binding of waveform_amplitude to the amplitude property. -/
def waveform_amplitude_v1 : PyProperty :=
  instrumentProperty .waveformAmplitudeGetter

/-- Line 579: the decorator expression is waveform_frequency.setter, so it is
applied to `waveform_frequency_v2`; the def statement binds the result to the
name waveform_amplitude, overwriting `waveform_amplitude_v1`. -/
def waveform_amplitude_v2 : PyProperty :=
  setterDecorator waveform_frequency_v2 .waveformAmplitudeSetter

/-- The final class namespace for the two names, after executing the four
statements in order (a later binding of a name shadows an earlier one). -/
def classAttr (name : String) : Option PyProperty :=
  if name = "waveform_frequency" then some waveform_frequency_v2
  else if name = "waveform_amplitude" then some waveform_amplitude_v2
  else none

/-- Reading a property executes its fget, which issues its query and returns
the parsed reply; `instr` maps each SCPI query to the reply it draws. -/
def readProperty (p : PyProperty) (instr : String → ℚ) : ℚ :=
  instr (getterQuery p.fget)

end Keithley6221

/-! ## CS4 out_field setter (claim C4)

`cryomagnetics_cs4.py`, out_field setter (lines 185-206):

    self.write(format of: ULIM target)
    if self.heater_state == Off:
        self.write(SWEEP UP FAST)
    else:
        self.write(SWEEP UP SLOW)
    sleep(wait)
    niter = 0
    while abs(self.target_field - target) >= OUT_FLUC:
        ...
        raise InstrIOError(...)

The name wait is not bound anywhere: it is not a parameter, not assigned in
the body before use, and not a module-level name of cryomagnetics_cs4.py, so
sleep(wait) raises NameError on every call, before the poll loop.  (The loop
would then read self.target_field, which is also not an attribute of CS4 or
of any of its base classes.)  The module names below are transcribed from
the import block and the module body of cryomagnetics_cs4.py.
-/

namespace CS4

/-- Module-level names of cryomagnetics_cs4.py: imports plus module
constants plus the class itself. -/
def moduleNames : List String :=
  ["cleandoc", "sleep", "OrderedDict", "InstrIOError", "secure_communication",
   "instrument_property", "VisaInstrument", "_GET_HEATER_DICT",
   "_ACTIVITY_DICT", "OUT_FLUC", "MAXITER", "CS4"]

/-- Local names bound in the out_field setter body when sleep(wait) runs: the
parameters self and target (niter is assigned only after the sleep call). -/
def outFieldSetterLocals : List String := ["self", "target"]

/-- A conservative superset-irrelevant sample of Python builtins; what
matters is that wait and target_field are not builtins. -/
def pyBuiltins : List String :=
  ["abs", "float", "int", "str", "print", "range", "len", "format"]

/-- Exceptions distinguished by the model. -/
inductive PyExn
  | nameError (missing : String)
  | attributeError (missing : String)
  | instrIOError
  deriving DecidableEq

/-- Python name resolution in the setter body: locals, then module globals,
then builtins; an unbound name raises NameError. -/
def lookupName (n : String) : Except PyExn Unit :=
  if n ∈ outFieldSetterLocals ∨ n ∈ moduleNames ∨ n ∈ pyBuiltins then Except.ok ()
  else Except.error (.nameError n)

/-- The instrument properties defined on CS4 (transcribed from the class
body); attribute access on self for any other name raises AttributeError. -/
def instrumentProperties : List String :=
  ["heater_state", "field_sweep_rate", "fast_sweep_rate", "out_field",
   "persistent_field", "activity"]

/-- Attribute lookup self.n for an instrument property. -/
def getattrSelf (n : String) : Except PyExn Unit :=
  if n ∈ instrumentProperties then Except.ok ()
  else Except.error (.attributeError n)

/-- Commands the out_field setter writes before the sleep call. -/
inductive WriteCmd
  | ulim (target : ℚ)
  | sweepUpFast
  | sweepUpSlow
  deriving DecidableEq

/-- The out_field setter.  `heaterOff` is the oracle result of the
heater_state read; the return value pairs the commands written with the
outcome of the rest of the body. -/
def out_field_set (target : ℚ) (heaterOff : Bool) :
    List WriteCmd × Except PyExn Unit :=
  ([WriteCmd.ulim target, if heaterOff then .sweepUpFast else .sweepUpSlow],
    match lookupName "wait" with
    | Except.error e => Except.error e
    | Except.ok () =>
      -- not reachable: were wait bound, the poll loop would next evaluate
      -- self.target_field, which fails attribute lookup
      match getattrSelf "target_field" with
      | Except.error e => Except.error e
      | Except.ok () => Except.ok ())

end CS4

/-! ## Alazar935x get_traces ring-buffer acquisition (claim C3)

`alazar935x.py`, get_traces (lines 135-290).  The function first checks

    if recordsPerCapture%recordsPerBuffer != 0:
        raise Exception(...)

before any board call, allocates bufferCount = 4 DMA buffers, computes
buffersPerAcquisition = int(math.ceil(recordsPerCapture / recordsPerBuffer))
(Python-2 integer division, so the exact quotient in the divisible case), and
runs

    while buffersCompleted < buffersPerAcquisition:
        buffer = buffers[buffersCompleted % len(buffers)]
        ... waitAsyncBufferComplete ...
        dataA[buffersCompleted*recordsPerBuffer:(buffersCompleted+1)*recordsPerBuffer] = ...
        dataB[buffersCompleted*recordsPerBuffer:(buffersCompleted+1)*recordsPerBuffer] = ...
        buffersCompleted += 1
        board.postAsyncBuffer(buffer.addr, buffer.size_bytes)

Each iteration is recorded as a `LoopIter`: which of the 4 buffers it used,
the half-open row range of dataA and dataB it wrote, and that it re-posted
the buffer to the board.
-/

namespace Alazar935x

/-- One iteration of the acquisition while-loop. -/
structure LoopIter where
  /-- Index into the buffer list: buffersCompleted % len(buffers). -/
  bufferIndex : ℕ
  /-- First row of dataA and dataB written by this iteration. -/
  rowLo : ℕ
  /-- One past the last row written by this iteration. -/
  rowHi : ℕ
  /-- Whether the iteration re-posted its buffer to the board. -/
  reposted : Bool
  deriving DecidableEq

/-- Number of DMA buffers allocated (bufferCount = 4). -/
def bufferCount : ℕ := 4

/-- The iteration performed when buffersCompleted = k. -/
def mkIter (recordsPerBuffer k : ℕ) : LoopIter :=
  { bufferIndex := k % bufferCount
    rowLo := k * recordsPerBuffer
    rowHi := (k + 1) * recordsPerBuffer
    reposted := true }

/-- The acquisition while-loop, one cons cell per iteration. -/
def acquisitionLoop (recordsPerBuffer buffersPerAcquisition buffersCompleted : ℕ) :
    List LoopIter :=
  if buffersCompleted < buffersPerAcquisition then
    mkIter recordsPerBuffer buffersCompleted ::
      acquisitionLoop recordsPerBuffer buffersPerAcquisition (buffersCompleted + 1)
  else []
termination_by buffersPerAcquisition - buffersCompleted

/-- The error message raised when the divisibility check fails. -/
def recordsMismatchError : String :=
  "Error: Number of records per capture must be an integer times the number of records per buffer!"

/-- Control flow of get_traces: the entry check, then the loop; an error
result carries no iterations, so no acquisition starts. -/
def get_traces (recordsPerCapture recordsPerBuffer : ℕ) :
    Except String (List LoopIter) :=
  if recordsPerCapture % recordsPerBuffer ≠ 0 then
    Except.error recordsMismatchError
  else
    Except.ok (acquisitionLoop recordsPerBuffer
      (recordsPerCapture / recordsPerBuffer) 0)

theorem acquisitionLoop_eq (rpb bpa bc : ℕ) :
    acquisitionLoop rpb bpa bc
      = (List.range (bpa - bc)).map (fun j => mkIter rpb (bc + j)) := by
  generalize h : bpa - bc = n
  induction n generalizing bc with
  | zero =>
      rw [acquisitionLoop]
      have : ¬ bc < bpa := by omega
      simp [this]
  | succ n ih =>
      have hlt : bc < bpa := by omega
      have h2 : bpa - (bc + 1) = n := by omega
      have hfun : ((fun j => mkIter rpb (bc + j)) ∘ Nat.succ)
          = fun j => mkIter rpb (bc + 1 + j) := by
        funext j
        simp only [Function.comp_apply]
        congr 1
        omega
      rw [acquisitionLoop, if_pos hlt, ih (bc + 1) h2,
        List.range_succ_eq_map, List.map_cons, List.map_map, hfun]
      simp

end Alazar935x

/-- Helper: a Boolean predicate that holds exactly at one member of a
duplicate-free list is counted once. -/
theorem countP_eq_one_of_unique {l : List ℕ} {c : ℕ} (hnd : l.Nodup) (hc : c ∈ l)
    (p : ℕ → Bool) (hp : ∀ k, p k = true ↔ k = c) : l.countP p = 1 := by
  induction l with
  | nil => cases hc
  | cons a l ih =>
      rcases List.nodup_cons.mp hnd with ⟨ha, hl⟩
      by_cases hpa : p a = true
      · have hac : a = c := (hp a).mp hpa
        subst hac
        rw [List.countP_cons_of_pos _ _ hpa]
        have : l.countP p = 0 := by
          rw [List.countP_eq_zero]
          intro b hb hpb
          exact ha (((hp b).mp hpb) ▸ hb)
        omega
      · have hac : a ≠ c := fun h => hpa ((hp a).mpr h)
        rw [List.countP_cons_of_neg _ _ (by simpa using hpa)]
        have hcl : c ∈ l := by
          rcases List.mem_cons.mp hc with h | h
          · exact absurd h.symm hac
          · exact h
        exact ih hl hcl

/-! ## U8SMC1 secure() context manager (claim C6)

`U8SMC1.py`, USMCDLL.secure (lines 381-395):

    t = 0
    while not self.lock.acquire():
        time.sleep(0.1)
        t += 0.1
        if t > self.timeout:
            raise InstrIOError(Timeout in trying to acquire dll lock.)
    try:
        yield
    finally:
        self.lock.release()

The lock acquire results enter the model as an oracle stream `acq`; the
accumulated wait after k failed attempts is exactly k/10 seconds (floats
idealised to `ℚ`).  With M = floor(timeout*10), the failed attempt number j
triggers the raise iff (j+1)/10 > timeout iff j ≥ M, so attempts 0..M run
before a timeout is possible.
-/

namespace USMC

/-- Events of one run of secure(). -/
inductive SEvent
  | sleepRetry
  | raiseTimeout
  | enterBody
  | bodyException
  | releaseLock
  deriving DecidableEq

/-- The retry loop: k is the index of the current acquire attempt.  Returns
the index of the succeeding attempt (or none on timeout) and the event list
of the loop. -/
def acquireLoop (acq : ℕ → Bool) (timeout : ℚ) (k : ℕ) : Option ℕ × List SEvent :=
  if acq k then (some k, [])
  else if timeout < (k + 1 : ℚ) / 10 then
    (none, [SEvent.sleepRetry, SEvent.raiseTimeout])
  else
    let r := acquireLoop acq timeout (k + 1)
    (r.1, SEvent.sleepRetry :: r.2)
termination_by (⌊timeout * 10⌋ + 1).toNat - k
decreasing_by
  rename_i hacq htle
  rw [not_lt, div_le_iff (by norm_num : (0:ℚ) < 10)] at htle
  have hfl : ((k : ℤ) + 1) ≤ ⌊timeout * 10⌋ := by
    rw [Int.le_floor]
    push_cast
    linarith
  omega

/-- One full run of secure(): the retry loop, then on success the guarded
block under try/finally; the finally clause releases the lock also when the
guarded block raises. -/
def secure (acq : ℕ → Bool) (timeout : ℚ) (bodyRaises : Bool) : List SEvent :=
  match acquireLoop acq timeout 0 with
  | (none, evs) => evs
  | (some _, evs) =>
      evs ++ [SEvent.enterBody]
        ++ (if bodyRaises then [SEvent.bodyException] else []) ++ [SEvent.releaseLock]

theorem acquireLoop_succ (acq : ℕ → Bool) (timeout : ℚ) (k : ℕ)
    (h : acq k = true) : acquireLoop acq timeout k = (some k, []) := by
  rw [acquireLoop]
  simp [h]

theorem acquireLoop_timeout_step (acq : ℕ → Bool) (timeout : ℚ) (k : ℕ)
    (h : acq k = false) (ht : 0 ≤ timeout) (hk : (⌊timeout * 10⌋).toNat ≤ k) :
    acquireLoop acq timeout k = (none, [SEvent.sleepRetry, SEvent.raiseTimeout]) := by
  have hM : (0 : ℤ) ≤ ⌊timeout * 10⌋ := by
    apply Int.floor_nonneg.mpr
    positivity
  have hlt : timeout < (k + 1 : ℚ) / 10 := by
    rw [lt_div_iff (by norm_num : (0:ℚ) < 10)]
    have h1 : ⌊timeout * 10⌋ < (k : ℤ) + 1 := by omega
    have h2 := Int.floor_lt.mp h1
    push_cast at h2 ⊢
    linarith
  rw [acquireLoop]
  simp [h, hlt]

theorem acquireLoop_retry_step (acq : ℕ → Bool) (timeout : ℚ) (k : ℕ)
    (h : acq k = false) (hk : k < (⌊timeout * 10⌋).toNat) :
    acquireLoop acq timeout k
      = ((acquireLoop acq timeout (k + 1)).1,
         SEvent.sleepRetry :: (acquireLoop acq timeout (k + 1)).2) := by
  have hle : (k + 1 : ℚ) / 10 ≤ timeout := by
    rw [div_le_iff (by norm_num : (0:ℚ) < 10)]
    have h1 : ((k : ℤ) + 1) ≤ ⌊timeout * 10⌋ := by omega
    have := Int.le_floor.mp h1
    push_cast at this ⊢
    linarith
  rw [acquireLoop]
  simp [h, not_lt.mpr hle]

/-- If every attempt from k through M fails, the loop sleeps once per failed
attempt and raises. -/
theorem acquireLoop_all_fail (acq : ℕ → Bool) (timeout : ℚ) (ht : 0 ≤ timeout)
    (k : ℕ) (hk : k ≤ (⌊timeout * 10⌋).toNat)
    (hfail : ∀ j, k ≤ j → j ≤ (⌊timeout * 10⌋).toNat → acq j = false) :
    acquireLoop acq timeout k
      = (none, List.replicate ((⌊timeout * 10⌋).toNat - k + 1) SEvent.sleepRetry
          ++ [SEvent.raiseTimeout]) := by
  generalize hn : (⌊timeout * 10⌋).toNat - k = n
  induction n generalizing k with
  | zero =>
      have hkM : k = (⌊timeout * 10⌋).toNat := by omega
      rw [acquireLoop_timeout_step acq timeout k
        (hfail k le_rfl (by omega)) ht (by omega)]
      simp
  | succ n ih =>
      have hklt : k < (⌊timeout * 10⌋).toNat := by omega
      rw [acquireLoop_retry_step acq timeout k (hfail k le_rfl (by omega)) hklt,
        ih (k + 1) (by omega) (fun j h1 h2 => hfail j (by omega) h2) (by omega)]
      simp [List.replicate_succ]

/-- If the first success is at attempt s within the timeout budget, the loop
sleeps once per earlier failed attempt and returns success. -/
theorem acquireLoop_first_succ (acq : ℕ → Bool) (timeout : ℚ)
    (s : ℕ) (hs : s ≤ (⌊timeout * 10⌋).toNat) (k : ℕ) (hks : k ≤ s)
    (hfail : ∀ j, k ≤ j → j < s → acq j = false) (hsucc : acq s = true) :
    acquireLoop acq timeout k = (some s, List.replicate (s - k) SEvent.sleepRetry) := by
  generalize hn : s - k = n
  induction n generalizing k with
  | zero =>
      have : k = s := by omega
      subst this
      rw [acquireLoop_succ acq timeout k hsucc]
      simp
  | succ n ih =>
      have hklt : k < s := by omega
      rw [acquireLoop_retry_step acq timeout k (hfail k le_rfl hklt) (by omega),
        ih (k + 1) (by omega) (fun j h1 h2 => hfail j (by omega) h2) (by omega)]
      simp [List.replicate_succ]

end USMC

/-! ## ApplyMagFieldTask.perform (claim C7)

`apply_mag_field_task.py`, perform (lines 74-107), together with
CS4.evaluate_state (`cryomagnetics_cs4.py` lines 64-72):

    sw_needed = (abs(self.persistent_field - value) >= OUT_FLUC)
    state[sw_needed] = sw_needed
    state[heater_off] = self.heater_state == Off

perform: optionally make_ready; evaluate_state; if sw_needed: (if
heater_off: prepare_heater_on, set_supervision, on True heater_on),
go_to_field(target_value, self.rate), set_supervision; if auto_stop_heater
(which set_supervision sets to False when the stop flag was seen):
stop_heater, set_supervision; finally write_in_database(field, target_value).

set_supervision returns False after freezing out_field and disabling
auto_stop_heater (stop flag seen), returns True when check_success passes,
and propagates InstrIOError when check_success raises; these three outcomes
are the oracle `SupOutcome` of each call.
-/

namespace ApplyMagField

/-- OUT_FLUC = 2e-4 from cryomagnetics_cs4.py. -/
def OUT_FLUC : ℚ := 2 / 10 ^ 4

/-- CS4.evaluate_state: the ordered pair (sw_needed, heater_off). -/
def evaluate_state (persistent_field value : ℚ) (heater_state : String) :
    Bool × Bool :=
  (decide (OUT_FLUC ≤ |persistent_field - value|), heater_state == "Off")

/-- Driver and database calls made by perform. -/
inductive Event
  | makeReady
  | prepareHeaterOn
  | heaterOn
  | goToField (target rate : ℚ)
  | stopHeater
  | freezeField
  | writeDB (value : ℚ)
  deriving DecidableEq

/-- Oracle outcome of one set_supervision call. -/
inductive SupOutcome
  | stopped
  | success
  | checkFailed
  deriving DecidableEq

/-- One supervised phase: the events of the phase (the freeze write is added
when the stop flag was seen), the Python return value of set_supervision,
and the updated auto_stop_heater; none when check_success raised. -/
def supervise (evs : List Event) (autoStop : Bool) (o : SupOutcome) :
    Option (List Event × Bool × Bool) :=
  match o with
  | .stopped => some (evs ++ [Event.freezeField], false, false)
  | .success => some (evs, true, autoStop)
  | .checkFailed => none

/-- The trailing auto_stop_heater block plus the final database write. -/
def finishStop (p : List Event × Bool) (o3 : SupOutcome) (target : ℚ) :
    Except Unit (List Event) :=
  if p.2 then
    match supervise [Event.stopHeater] p.2 o3 with
    | none => Except.error ()
    | some (e3, _, _) => Except.ok (p.1 ++ e3 ++ [Event.writeDB target])
  else Except.ok (p.1 ++ [Event.writeDB target])

/-- perform.  `needsMakeReady` is the owner/check_connection condition,
`pf` the persistent_field read, `heaterState` the heater_state read,
`autoStop0` the auto_stop_heater pref, `o1 o2 o3` the outcomes of the up to
three set_supervision calls in source order. -/
def perform (needsMakeReady : Bool) (pf target rate : ℚ) (heaterState : String)
    (autoStop0 : Bool) (o1 o2 o3 : SupOutcome) : Except Unit (List Event) :=
  let evs0 : List Event := if needsMakeReady then [Event.makeReady] else []
  let st := evaluate_state pf target heaterState
  if st.1 then
    let phase1 :=
      if st.2 then
        (supervise [Event.prepareHeaterOn] autoStop0 o1).map
          (fun q => (evs0 ++ q.1 ++ (if q.2.1 then [Event.heaterOn] else []), q.2.2))
      else some (evs0, autoStop0)
    match phase1 with
    | none => Except.error ()
    | some (evs1, autoStop1) =>
      match supervise [Event.goToField target rate] autoStop1 o2 with
      | none => Except.error ()
      | some (e2, _, autoStop2) => finishStop (evs1 ++ e2, autoStop2) o3 target
  else finishStop (evs0, autoStop0) o3 target

end ApplyMagField

/-! ## Alazar935x get_demod lock-in demodulation (claim C2)

`alazar935x_modified.py`, get_demod (lines 286-357), average=True path, for
one demodulation channel i:

    data[i] = (data[i] / code - 1) * channelRange          (line 290)
    dem = np.arange(samplesPerBlock[i])
    coses[i] = np.cos(2. * math.pi * dem * freq[i] / samplesPerSec)
    sines[i] = np.sin(2. * math.pi * dem * freq[i] / samplesPerSec)
    angle = 2 * np.pi * freq[i] * startSample[i] / samplesPerSec
    data[i] = np.mean(data[i], axis=0)
    ansI = 2 * np.mean((data[i]*coses[i]).reshape(lengthDemod[i], -1), axis=1)
    ansQ = 2 * np.mean((data[i]*sines[i]).reshape(lengthDemod[i], -1), axis=1)
    answerDemod[I][:lengthDemod[i]] = ansI * np.cos(angle) - ansQ * np.sin(angle)
    answerDemod[Q][:lengthDemod[i]] = ansI * np.sin(angle) + ansQ * np.cos(angle)

Floats are idealised to `ℝ`.  L is lengthDemod[i] and m the reshape block
width samplesPerBlock[i] / L; bin j of the reshaped array holds samples
j*m .. j*m+m-1.  The raw per-record block data enters as an oracle function.
-/

namespace AlazarDemod

/-- Volt conversion, line 290. -/
noncomputable def voltConvert (code channelRange x : ℝ) : ℝ :=
  (x / code - 1) * channelRange

/-- Cosine reference table, line 299. -/
noncomputable def cosTable (freq samplesPerSec : ℝ) (n : ℕ) : ℝ :=
  Real.cos (2 * Real.pi * n * freq / samplesPerSec)

/-- Sine reference table, line 300. -/
noncomputable def sinTable (freq samplesPerSec : ℝ) (n : ℕ) : ℝ :=
  Real.sin (2 * Real.pi * n * freq / samplesPerSec)

/-- Record averaging, line 349: mean over the R records at sample n. -/
noncomputable def recordMean (R : ℕ) (d : ℕ → ℕ → ℝ) (n : ℕ) : ℝ :=
  (∑ r ∈ Finset.range R, d r n) / R

/-- Lines 350-351: 2 times the mean over reshape bin j (width m) of the
pointwise product of the data with a reference table. -/
noncomputable def twiceBinMean (f table : ℕ → ℝ) (m j : ℕ) : ℝ :=
  2 * ((∑ k ∈ Finset.range m, f (j * m + k) * table (j * m + k)) / m)

/-- The rotation angle, line 347. -/
noncomputable def angle (freq startSample samplesPerSec : ℝ) : ℝ :=
  2 * Real.pi * freq * startSample / samplesPerSec

/-- The full average=True pipeline for one channel: volt-convert the raw
records, average over records, demodulate against the tables, rotate.
Returns the (I, Q) pair for bin j. -/
noncomputable def demodChannel (raw : ℕ → ℕ → ℝ) (code channelRange : ℝ)
    (R m : ℕ) (freq samplesPerSec startSample : ℝ) (j : ℕ) : ℝ × ℝ :=
  let dataV : ℕ → ℕ → ℝ := fun r n => voltConvert code channelRange (raw r n)
  let dbar : ℕ → ℝ := recordMean R dataV
  let aI := twiceBinMean dbar (cosTable freq samplesPerSec) m j
  let aQ := twiceBinMean dbar (sinTable freq samplesPerSec) m j
  let ang := angle freq startSample samplesPerSec
  (aI * Real.cos ang - aQ * Real.sin ang, aI * Real.sin ang + aQ * Real.cos ang)

/-- The formula of the claim, written from its text: ansI and ansQ are 2
times the mean of the volt-converted data multiplied with
cos(2 pi n freq / samplesPerSec) resp. sin(2 pi n freq / samplesPerSec), and
the returned values are ansI and ansQ rotated by
2 pi freq startSample / samplesPerSec. -/
noncomputable def claimIQ (dataV : ℕ → ℝ) (m : ℕ)
    (freq samplesPerSec startSample : ℝ) (j : ℕ) : ℝ × ℝ :=
  let ansI := 2 * ((∑ n ∈ Finset.range m,
    dataV (j * m + n) * Real.cos (2 * Real.pi * (j * m + n : ℕ) * freq / samplesPerSec)) / m)
  let ansQ := 2 * ((∑ n ∈ Finset.range m,
    dataV (j * m + n) * Real.sin (2 * Real.pi * (j * m + n : ℕ) * freq / samplesPerSec)) / m)
  let ang := 2 * Real.pi * freq * startSample / samplesPerSec
  (ansI * Real.cos ang - ansQ * Real.sin ang,
   ansI * Real.sin ang + ansQ * Real.cos ang)

end AlazarDemod

/-! ## HQCMeas-to-ecpy configuration conversion (claim C9)

`convert.py`, update_task (lines 138-176) and fix_access_exs (108-135), over
configobj sections.  A section is an ordered list of scalar entries plus an
ordered list of subsections; configobj keeps keys unique.  Keys are
abstracted into an inductive type (distinct constructors stand for distinct
key strings); scalar values are strings, except access_exs values, which the
code parses with literal_eval and re-serialises with repr: they are modelled
structurally as empty-list, non-empty list or dict literals (an axList is by
convention non-empty, so that only axEmptyList prints as the two-character
empty-list repr, and a list repr contains a brace character iff one of its
element strings does).  Python mutates sections in place, so update_task is
modelled as returning the section state at exit together with the exception
raised, if any; on an exception inside the fix_access_exs walk the state of
the subsections is not tracked (the walk never touches top-level scalars).
-/

namespace Convert

/-- Configuration keys. -/
inductive Key
  | task_class
  | task_id
  | dep_type
  | task_name
  | name
  | task
  | children_task (i : ℕ)
  | children (i : ℕ)
  | selected_driver
  | selected_profile
  | access_exs
  | other (s : String)
  deriving DecidableEq

/-- A scalar configuration value. -/
inductive CfgVal
  | str (s : String)
  | axEmptyList
  | axList (xs : List String)
  | axDict (m : List (String × ℕ))
  deriving DecidableEq

/-- A configobj section. -/
inductive Sec
  | mk (scalars : List (Key × CfgVal)) (sections : List (Key × Sec))

/-- Scalar entries of a section. -/
def Sec.scalars : Sec → List (Key × CfgVal)
  | .mk s _ => s

/-- Subsections of a section. -/
def Sec.sections : Sec → List (Key × Sec)
  | .mk _ t => t

/-- Exceptions distinguished by the conversion model. -/
inductive PyErr
  | valueError
  | keyError
  | runtimeError
  | attributeError
  deriving DecidableEq

/-- Scalar lookup. -/
def lookupScalar (c : Sec) (k : Key) : Option CfgVal :=
  (c.scalars.find? (fun p => p.1 == k)).map Prod.snd

/-- Subsection lookup. -/
def lookupSection (c : Sec) (k : Key) : Option Sec :=
  (c.sections.find? (fun p => p.1 == k)).map Prod.snd

/-- Scalar presence. -/
def hasScalar (c : Sec) (k : Key) : Bool := (lookupScalar c k).isSome

/-- Subsection presence. -/
def hasSection (c : Sec) (k : Key) : Bool := (lookupSection c k).isSome

/-- The in test of configobj covers scalars and subsections. -/
def mem' (c : Sec) (k : Key) : Bool := hasScalar c k || hasSection c k

/-- Dict-style assignment c[k] = v: overwrite in place, or append. -/
def setScalar (c : Sec) (k : Key) (v : CfgVal) : Sec :=
  if hasScalar c k then
    .mk (c.scalars.map (fun p => if p.1 == k then (k, v) else p)) c.sections
  else
    .mk (c.scalars ++ [(k, v)]) c.sections

/-- Subsection assignment. -/
def setSection (c : Sec) (k : Key) (v : Sec) : Sec :=
  if hasSection c k then
    .mk c.scalars (c.sections.map (fun p => if p.1 == k then (k, v) else p))
  else
    .mk c.scalars (c.sections ++ [(k, v)])

/-- del c[k] for a scalar key. -/
def delScalar (c : Sec) (k : Key) : Sec :=
  .mk (c.scalars.filter (fun p => !(p.1 == k))) c.sections

/-- configobj rename: replace the key in place, scalars first, subsections
otherwise (the caller guards presence). -/
def renameTotal (c : Sec) (old new : Key) : Sec :=
  if hasScalar c old then
    .mk (c.scalars.map (fun p => if p.1 == old then (new, p.2) else p)) c.sections
  else
    .mk c.scalars (c.sections.map (fun p => if p.1 == old then (new, p.2) else p))

/-- configobj rename raises KeyError when the key is absent. -/
def rename (c : Sec) (old new : Key) : Except PyErr Sec :=
  if mem' c old then Except.ok (renameTotal c old new) else Except.error .keyError

/-- The TASKS mapping of convert.py, transcribed in full. -/
def TASKS : List (String × String) :=
  [("ComplexTask", "ecpy.ComplexTask"),
   ("WhileTask", "ecpy.WhileTask"),
   ("ConditionalTask", "ecpy.ConditionalTask"),
   ("BreakTask", "ecpy.BreakTask"),
   ("ContinueTask", "ecpy.ContinueTask"),
   ("LoopTask", "ecpy.LoopTask"),
   ("LogTask", "ecpy.LogTask"),
   ("DefinitionTask", "ecpy.DefinitionTask"),
   ("FormulaTask", "ecpy.FormulaTask"),
   ("SleepTask", "ecpy.SleepTask"),
   ("ArrayExtremaTask", "ecpy_hqc_legacy.ArrayExtremaTask"),
   ("ArrayFindValueTask", "ecpy_hqc_legacy.ArrayFindValueTask"),
   ("SaveTask", "ecpy_hqc_legacy.SaveTask"),
   ("SaveFileTask", "ecpy_hqc_legacy.SaveFileTask"),
   ("SaveFileHDF5Task", "ecpy_hqc_legacy.SaveFileHDF5Task"),
   ("SaveArrayTask", "ecpy_hqc_legacy.SaveArrayTask"),
   ("LoadArrayTask", "ecpy_hqc_legacy.LoadArrayTask"),
   ("ApplyMagFieldTask", "ecpy_hqc_legacy.ApplyMagFieldTask"),
   ("LockInMeasureTask", "ecpy_hqc_legacy.LockInMeasureTask"),
   ("MeasDCVoltageTask", "ecpy_hqc_legacy.MeasDCVoltageTask"),
   ("SetRFFrequencyTask", "ecpy_hqc_legacy.SetRFFrequencyTask"),
   ("SetRFPowerTask", "ecpy_hqc_legacy.SetRFPowerTask"),
   ("SetRFOnOffTask", "ecpy_hqc_legacy.SetRFOnOffTask"),
   ("PNASinglePointMeasureTask", "ecpy_hqc_legacy.PNASinglePointMeasureTask"),
   ("PNASweepTask", "ecpy_hqc_legacy.PNASweepTask"),
   ("PNAGetTraces", "ecpy_hqc_legacy.PNAGetTraces"),
   ("SetDCVoltageTask", "ecpy_hqc_legacy.SetDCVoltageTask"),
   ("DemodSPTask", "ecpy_hqc_legacy.DemodSPTask"),
   ("TransferPulseSequenceTask", "ecpy_pulses.TransferPulseSequenceTask")]

/-- TASKS[s], as an Option. -/
def tasksLookup (s : String) : Option String :=
  (TASKS.find? (fun p => p.1 == s)).map Prod.snd

/-- What literal_eval returns on the model values. -/
inductive PyObj
  | list (xs : List String)
  | dict (m : List (String × ℕ))

/-- literal_eval; an arbitrary string is not a well-formed literal in the
model. -/
def literalEval : CfgVal → Option PyObj
  | .axEmptyList => some (.list [])
  | .axList xs => some (.list xs)
  | .axDict m => some (.dict m)
  | .str _ => none

/-- repr of a parsed access_exs object, back to a scalar value. -/
def reprObj : PyObj → CfgVal
  | .list [] => .axEmptyList
  | .list xs => .axList xs
  | .dict m => .axDict m

/-- The test value == the empty-list repr string. -/
def isEmptyListRepr : CfgVal → Bool
  | .axEmptyList => true
  | _ => false

/-- The test of whether the repr of the value contains a brace character. -/
def containsBrace : CfgVal → Bool
  | .axDict _ => true
  | .axList xs => xs.any (fun s => s.toList.contains (Char.ofNat 123))
  | .axEmptyList => false
  | .str s => s.toList.contains (Char.ofNat 123)

/-- The in test on a parsed object: element of a list, key of a dict. -/
def objContains (o : PyObj) (x : String) : Bool :=
  match o with
  | .list xs => xs.contains x
  | .dict m => m.any (fun p => p.1 == x)

/-- The keys iterated by a for loop over the object. -/
def objIter : PyObj → List String
  | .list xs => xs
  | .dict m => m.map Prod.fst

/-- Python split on underscore: cut at every underscore character, keeping
empty chunks; acc holds the current chunk reversed. -/
def splitAux : List Char → List Char → List String
  | [], acc => [String.mk acc.reverse]
  | c :: rest, acc =>
      if c = Char.ofNat 95 then String.mk acc.reverse :: splitAux rest []
      else splitAux rest (c :: acc)

/-- Python split on underscore. -/
def splitUnderscore (s : String) : List String := splitAux s.toList []

/-- Tuple unpacking a, b = l: ValueError unless l has exactly two parts. -/
def unpack2 (l : List String) : Except PyErr (String × String) :=
  match l with
  | [a, b] => Except.ok (a, b)
  | _ => Except.error .valueError

/-- The comparison s.get(task_name) == tname. -/
def getEqStr (v : Option CfgVal) (t : String) : Bool :=
  match v with
  | some (.str u) => u == t
  | _ => false

/-- Dict assignment m[k] = v. -/
def dictSet (m : List (String × ℕ)) (k : String) (v : ℕ) : List (String × ℕ) :=
  if m.any (fun p => p.1 == k) then
    m.map (fun p => if p.1 == k then (k, v) else p)
  else m ++ [(k, v)]

mutual

/-- Tree size measure on sections (scalars do not count). -/
def secSize : Sec → ℕ
  | .mk _ subs => 1 + subsSize subs

/-- Tree size of a subsection list. -/
def subsSize : List (Key × Sec) → ℕ
  | [] => 0
  | (_, s) :: rest => 1 + secSize s + subsSize rest

end

theorem secSize_mk (sc : List (Key × CfgVal)) (subs : List (Key × Sec)) :
    secSize (.mk sc subs) = 1 + subsSize subs := by
  rw [secSize]

theorem secSize_setScalar (c : Sec) (k : Key) (v : CfgVal) :
    secSize (setScalar c k v) = secSize c := by
  cases c
  rw [setScalar]
  split <;> simp [Sec.scalars, Sec.sections, secSize_mk]

/-- The body of fix_access_exs acting on one subsection s whose access_exs
does not contain ex: the elif branch (lines 125-135).  The assigned target
(s itself, or its task subsection when the LoopTask test holds) and the used
depth (incremented in the LoopTask case) are inlined per branch; the branch
always fires the break.  Returns the updated subsection and whether break
fired. -/
def fixElif (s : Sec) (tname entry : String) (depth : ℕ) :
    Except PyErr (Sec × Bool) :=
  if getEqStr (lookupScalar s Key.task_name) tname then
    match lookupScalar s Key.task_class with
    | none => Except.error PyErr.keyError
    | some tc =>
      if tc == CfgVal.str "LoopTask"
          && !(["start", "stop", "step", "points_number", "iterable"].contains entry) then
        match lookupSection s Key.task with
        | none => Except.error PyErr.keyError
        | some t =>
          match literalEval ((lookupScalar t Key.access_exs).getD (.axDict [])) with
          | none => Except.error PyErr.valueError
          | some (.list _) => Except.error PyErr.runtimeError
          | some (.dict m) =>
            Except.ok (setSection s Key.task
              (setScalar t Key.access_exs
                (reprObj (.dict (dictSet m entry (depth + 1))))), true)
      else
        match literalEval ((lookupScalar s Key.access_exs).getD (.axDict [])) with
        | none => Except.error PyErr.valueError
        | some (.list _) => Except.error PyErr.runtimeError
        | some (.dict m) =>
          Except.ok (setScalar s Key.access_exs
            (reprObj (.dict (dictSet m entry depth))), true)
  else Except.ok (s, false)

mutual

/-- fix_access_exs (lines 108-135): split ex, then walk the subsections. -/
def fixAccessExs (sec : Sec) (ex : String) (depth : ℕ) : Except PyErr Sec :=
  match unpack2 (splitUnderscore ex) with
  | Except.error e => Except.error e
  | Except.ok (tname, entry) =>
    match fixLoop sec.sections ex tname entry depth with
    | Except.error e => Except.error e
    | Except.ok r => Except.ok (.mk sec.scalars r.1)
termination_by secSize sec
decreasing_by
  cases sec
  simp [secSize_mk, Sec.sections]

/-- The for loop of fix_access_exs, threading the in-place updates of the
subsections and the local depth; the Bool records whether break fired. -/
def fixLoop (subs : List (Key × Sec)) (ex tname entry : String) (depth : ℕ) :
    Except PyErr (List (Key × Sec) × Bool) :=
  match subs with
  | [] => Except.ok ([], false)
  | (k, s) :: rest =>
    match literalEval ((lookupScalar s .access_exs).getD CfgVal.axEmptyList) with
    | none => Except.error PyErr.valueError
    | some exs =>
      if objContains exs ex then
        -- del exs[exs.index(ex)] demands a list
        match exs with
        | .dict _ => Except.error PyErr.attributeError
        | .list xs =>
          let s1 := setScalar s .access_exs (reprObj (.list (xs.erase ex)))
          match fixAccessExs s1 ex (depth + 1) with
          | Except.error e => Except.error e
          | Except.ok s2 =>
            match fixLoop rest ex tname entry (depth + 1) with
            | Except.error e => Except.error e
            | Except.ok r => Except.ok ((k, s2) :: r.1, r.2)
      else
        match fixElif s tname entry depth with
        | Except.error e => Except.error e
        | Except.ok (s2, true) => Except.ok ((k, s2) :: rest, true)
        | Except.ok (s2, false) =>
          match fixLoop rest ex tname entry depth with
          | Except.error e => Except.error e
          | Except.ok r => Except.ok ((k, s2) :: r.1, r.2)
termination_by subsSize subs
decreasing_by
  all_goals simp [subsSize, secSize_setScalar]
  all_goals omega

end

/-- The for loop over the parsed access_exs names (line 173):
fix_access_exs(task_config, ex, 1) for each name, propagating exceptions. -/
def fixFor (c : Sec) (exs : List String) : Except PyErr Sec :=
  match exs with
  | [] => Except.ok c
  | ex :: rest =>
    match fixAccessExs c ex 1 with
    | Except.error e => Except.error e
    | Except.ok c2 => fixFor c2 rest

/-- The access_exs block of update_task (lines 166-176). -/
def accessBlock (c : Sec) : Sec × Option PyErr :=
  if hasScalar c Key.access_exs then
    let v := (lookupScalar c Key.access_exs).getD (.str "")
    if isEmptyListRepr v then (delScalar c Key.access_exs, none)
    else if containsBrace v then (c, none)
    else
      match literalEval v with
      | none => (c, some PyErr.valueError)
      | some o =>
        match fixFor c (objIter o) with
        | Except.error e => (c, some e)
        | Except.ok c2 =>
          let v2 := (lookupScalar c2 Key.access_exs).getD (.str "")
          if !(containsBrace v2) then (delScalar c2 Key.access_exs, none)
          else (c2, none)
  else (c, none)

/-- The children rename loop of update_task (lines 157-160): while the key
children_task_i is present, rename it to children_i and increment i.  Each
iteration consumes one distinct key, so the entry count of the section
bounds the iterations; the fuel makes that bound explicit. -/
def renameChildren (c : Sec) (i fuel : ℕ) : Sec :=
  match fuel with
  | 0 => c
  | f + 1 =>
    if mem' c (.children_task i) then
      renameChildren (renameTotal c (.children_task i) (.children i)) (i + 1) f
    else c

/-- d = the lookup of task_config[k] over scalars and subsections. -/
def lookupAny (c : Sec) (k : Key) : Option (CfgVal ⊕ Sec) :=
  match lookupScalar c k with
  | some v => some (.inl v)
  | none => (lookupSection c k).map Sum.inr

/-- The old_id not in TASKS test combined with the TASKS lookup: a string
value that is a TASKS key yields its task id. -/
def taskIdOf : Option (CfgVal ⊕ Sec) → Option String
  | some (.inl (.str s)) => tasksLookup s
  | _ => none

/-- if key in task_config: del task_config[key] (lines 162-164). -/
def delIfPresent (c : Sec) (k : Key) : Sec :=
  if mem' c k then
    .mk (c.scalars.filter (fun p => !(p.1 == k)))
        (c.sections.filter (fun p => !(p.1 == k)))
  else c

/-- Entry list of a section: scalar keys then subsection keys. -/
def keysOf (c : Sec) : List Key :=
  c.scalars.map Prod.fst ++ c.sections.map Prod.fst

/-- Well-formedness of configobj sections: keys are unique. -/
def keysNodup (c : Sec) : Prop := (keysOf c).Nodup

/-- Is the key one of the renamed children keys. -/
def isChildrenKey : Key → Bool
  | .children _ => true
  | _ => false

/-- No children_i key is present (they are created only by the rename). -/
def noChildrenKeys (c : Sec) : Bool :=
  !(c.scalars.any (fun p => isChildrenKey p.1))
    && !(c.sections.any (fun p => isChildrenKey p.1))

/-- Shape constraint for a stored access_exs scalar: parseable by
literal_eval, with the non-empty-list convention. -/
def axShaped : Option CfgVal → Bool
  | some (.str _) => false
  | some (.axList xs) => !xs.isEmpty
  | _ => true

mutual

/-- Well-formedness of the access_exs data in a section tree: the scalar
value is shaped, no subsection is named access_exs, recursively. -/
def axWF : Sec → Bool
  | .mk sc subs =>
      axShaped ((sc.find? (fun p => p.1 == Key.access_exs)).map Prod.snd)
        && !(subs.any (fun p => p.1 == Key.access_exs))
        && axWFsubs subs

/-- Well-formedness of every subsection in a list. -/
def axWFsubs : List (Key × Sec) → Bool
  | [] => true
  | (_, s) :: rest => axWF s && axWFsubs rest

end

/-- Every name in the top access_exs list splits on underscore into exactly
two parts (so the tuple unpacking in fix_access_exs succeeds). -/
def splitOK (c : Sec) : Bool :=
  match lookupScalar c Key.access_exs with
  | some (.axList xs) => xs.all (fun x => (splitUnderscore x).length == 2)
  | _ => true

/-- update_task (lines 138-176), threading the in-place mutations: the
returned section is the state at exit and the Option the exception raised,
if any. -/
def update_task (cfg : Sec) : Sec × Option PyErr :=
  match lookupAny cfg Key.task_class with
  | none => (cfg, some PyErr.keyError)
  | some v =>
    match taskIdOf (some v) with
    | none => (cfg, some PyErr.valueError)
    | some tid =>
      let c1 := setScalar cfg Key.task_id (.str tid)
      let c2 := delScalar c1 Key.task_class
      let c3 := setScalar c2 Key.dep_type (.str "ecpy.task")
      match rename c3 Key.task_name Key.name with
      | Except.error e => (c3, some e)
      | Except.ok c4 =>
        let c5 := renameChildren c4 0 (c4.scalars.length + c4.sections.length + 1)
        let c6 := delIfPresent c5 Key.selected_driver
        let c7 := delIfPresent c6 Key.selected_profile
        accessBlock c7

/-! ### Association-list lemmas for the update_task proofs -/

theorem beqT {k k2 : Key} (h : k = k2) : (k == k2) = true := beq_iff_eq.mpr h

theorem beqF {k k2 : Key} (h : ¬ k = k2) : (k == k2) = false :=
  beq_eq_false_iff_ne.mpr h

theorem andT {a b : Bool} (h : (a && b) = true) : a = true ∧ b = true := by
  simp only [Bool.and_eq_true] at h
  exact h

theorem find?_map_set_ne {α : Type} (l : List (Key × α)) (k k2 : Key) (v : α)
    (h : ¬ k2 = k) :
    (l.map (fun p => if p.1 == k then (k, v) else p)).find? (fun p => p.1 == k2)
      = l.find? (fun p => p.1 == k2) := by
  induction l with
  | nil => rfl
  | cons a l ih =>
      by_cases ha : a.1 = k
      · simp only [List.map_cons, if_pos (beqT ha), List.find?_cons,
          beqF (fun hh : k = k2 => h hh.symm),
          beqF (fun hh : a.1 = k2 => h (ha ▸ hh).symm)]
        exact ih
      · simp only [List.map_cons, if_neg (ne_true_of_eq_false (beqF ha)),
          List.find?_cons]
        by_cases hk2 : a.1 = k2
        · simp only [beqT hk2]
        · simp only [beqF hk2]
          exact ih

theorem find?_map_set_eq {α : Type} (l : List (Key × α)) (k : Key) (v : α)
    (h : (l.find? (fun p => p.1 == k)).isSome) :
    (l.map (fun p => if p.1 == k then (k, v) else p)).find? (fun p => p.1 == k)
      = some (k, v) := by
  induction l with
  | nil => simp at h
  | cons a l ih =>
      by_cases ha : a.1 = k
      · simp only [List.map_cons, if_pos (beqT ha), List.find?_cons,
          beqT (rfl : k = k)]
      · simp only [List.find?_cons, beqF ha] at h
        simp only [List.map_cons, if_neg (ne_true_of_eq_false (beqF ha))]
        simp only [List.find?_cons, beqF ha]
        exact ih h

theorem find?_filter_key_ne {α : Type} (l : List (Key × α)) (k k2 : Key)
    (h : ¬ k2 = k) :
    (l.filter (fun p => !(p.1 == k))).find? (fun p => p.1 == k2)
      = l.find? (fun p => p.1 == k2) := by
  induction l with
  | nil => rfl
  | cons a l ih =>
      by_cases ha : a.1 = k
      · simp [List.filter_cons, List.find?_cons, beqT ha,
          beqF (fun hh : a.1 = k2 => h (ha ▸ hh).symm), ih]
      · by_cases hk2 : a.1 = k2
        · simp [List.filter_cons, List.find?_cons, beqF ha, beqT hk2]
        · simp [List.filter_cons, List.find?_cons, beqF ha, beqF hk2, ih]

theorem find?_filter_key_self {α : Type} (l : List (Key × α)) (k : Key) :
    (l.filter (fun p => !(p.1 == k))).find? (fun p => p.1 == k) = none := by
  induction l with
  | nil => rfl
  | cons a l ih =>
      by_cases ha : a.1 = k
      · simp [List.filter_cons, beqT ha, ih]
      · simp [List.filter_cons, List.find?_cons, beqF ha, ih]

theorem find?_append_some {α : Type} (l : List (Key × α)) (x : Key × α)
    (p : Key × α → Bool) (h : (l.find? p).isSome) :
    (l ++ [x]).find? p = l.find? p := by
  induction l with
  | nil => simp at h
  | cons a l ih =>
      cases hp : p a with
      | true => simp only [List.cons_append, List.find?_cons, hp]
      | false =>
          simp only [List.find?_cons, hp] at h
          simp only [List.cons_append, List.find?_cons, hp]
          exact ih h

theorem find?_append_none {α : Type} (l : List (Key × α)) (x : Key × α)
    (p : Key × α → Bool) (h : l.find? p = none) :
    (l ++ [x]).find? p = [x].find? p := by
  induction l with
  | nil => rfl
  | cons a l ih =>
      cases hp : p a with
      | true =>
          simp only [List.find?_cons, hp] at h
          exact Option.noConfusion h
      | false =>
          simp only [List.find?_cons, hp] at h
          simp only [List.cons_append, List.find?_cons, hp]
          exact ih h

theorem find?_map_rename_ne {α : Type} (l : List (Key × α)) (old new k2 : Key)
    (h1 : ¬ k2 = old) (h2 : ¬ k2 = new) :
    (l.map (fun p => if p.1 == old then (new, p.2) else p)).find?
        (fun p => p.1 == k2)
      = l.find? (fun p => p.1 == k2) := by
  induction l with
  | nil => rfl
  | cons a l ih =>
      by_cases ha : a.1 = old
      · simp only [List.map_cons, if_pos (beqT ha), List.find?_cons,
          beqF (fun hh : new = k2 => h2 hh.symm),
          beqF (fun hh : a.1 = k2 => h1 (ha ▸ hh).symm)]
        exact ih
      · simp only [List.map_cons, if_neg (ne_true_of_eq_false (beqF ha)),
          List.find?_cons]
        by_cases hk2 : a.1 = k2
        · simp only [beqT hk2]
        · simp only [beqF hk2]
          exact ih

theorem find?_map_rename_old {α : Type} (l : List (Key × α)) (old new : Key)
    (h : ¬ old = new) :
    (l.map (fun p => if p.1 == old then (new, p.2) else p)).find?
        (fun p => p.1 == old)
      = none := by
  induction l with
  | nil => rfl
  | cons a l ih =>
      by_cases ha : a.1 = old
      · simp only [List.map_cons, if_pos (beqT ha)]
        simp only [List.find?_cons, beqF (fun hh : new = old => h hh.symm)]
        exact ih
      · simp only [List.map_cons, if_neg (ne_true_of_eq_false (beqF ha))]
        simp only [List.find?_cons, beqF ha]
        exact ih

theorem find?_map_rename_new {α : Type} (l : List (Key × α)) (old new : Key)
    (hnew : l.find? (fun p => p.1 == new) = none) :
    (l.map (fun p => if p.1 == old then (new, p.2) else p)).find?
        (fun p => p.1 == new)
      = (l.find? (fun p => p.1 == old)).map (fun p => (new, p.2)) := by
  induction l with
  | nil => rfl
  | cons a l ih =>
      have hanew : ¬ a.1 = new := by
        intro hh
        simp only [List.find?_cons, beqT hh] at hnew
        exact Option.noConfusion hnew
      simp only [List.find?_cons, beqF hanew] at hnew
      by_cases ha : a.1 = old
      · simp only [List.map_cons, if_pos (beqT ha)]
        simp only [List.find?_cons, beqT (rfl : new = new), beqT ha]
        rfl
      · simp only [List.map_cons, if_neg (ne_true_of_eq_false (beqF ha))]
        simp only [List.find?_cons, beqF hanew, beqF ha]
        exact ih hnew

theorem map_fst_rename {α : Type} (l : List (Key × α)) (old new : Key) :
    (l.map (fun p => if p.1 == old then (new, p.2) else p)).map Prod.fst
      = (l.map Prod.fst).map (fun x => if x = old then new else x) := by
  induction l with
  | nil => rfl
  | cons a l ih =>
      by_cases ha : a.1 = old
      · simp only [List.map_cons, if_pos (beqT ha), if_pos ha, ih]
      · simp only [List.map_cons, if_neg (ne_true_of_eq_false (beqF ha)),
          if_neg ha, ih]

/-! ### Section-level effects of the update_task operations -/

theorem map_fst_set {α : Type} (l : List (Key × α)) (k : Key) (v : α) :
    (l.map (fun p => if p.1 == k then (k, v) else p)).map Prod.fst
      = l.map Prod.fst := by
  induction l with
  | nil => rfl
  | cons a l ih =>
      by_cases ha : a.1 = k
      · simp only [List.map_cons, if_pos (beqT ha), ih]
        simp [ha]
      · simp only [List.map_cons, if_neg (ne_true_of_eq_false (beqF ha)), ih]

theorem lookupScalar_setScalar_self (c : Sec) (k : Key) (v : CfgVal) :
    lookupScalar (setScalar c k v) k = some v := by
  cases c with
  | mk sc subs =>
      rw [setScalar]
      by_cases h : hasScalar (Sec.mk sc subs) k = true
      · rw [if_pos h]
        unfold hasScalar lookupScalar at h
        unfold lookupScalar
        simp only [Sec.scalars] at h ⊢
        rw [find?_map_set_eq]
        · rfl
        · simpa using h
      · rw [if_neg h]
        unfold hasScalar lookupScalar at h
        unfold lookupScalar
        simp only [Sec.scalars] at h ⊢
        have hnone : sc.find? (fun p => p.1 == k) = none := by
          cases hf : sc.find? (fun p => p.1 == k) with
          | none => rfl
          | some x => rw [hf] at h; simp at h
        rw [find?_append_none _ _ _ hnone]
        simp [List.find?_cons, beqT (rfl : k = k)]

theorem lookupScalar_setScalar_ne (c : Sec) (k k2 : Key) (v : CfgVal)
    (h : ¬ k2 = k) :
    lookupScalar (setScalar c k v) k2 = lookupScalar c k2 := by
  cases c with
  | mk sc subs =>
      rw [setScalar]
      by_cases hk : hasScalar (Sec.mk sc subs) k = true
      · rw [if_pos hk]
        unfold lookupScalar
        simp only [Sec.scalars]
        rw [find?_map_set_ne _ _ _ _ h]
      · rw [if_neg hk]
        unfold lookupScalar
        simp only [Sec.scalars]
        cases hf : sc.find? (fun p => p.1 == k2) with
        | some x =>
            rw [find?_append_some _ _ _ (by simp [hf]), hf]
        | none =>
            rw [find?_append_none _ _ _ hf]
            simp [List.find?_cons, beqF (fun hh : k = k2 => h hh.symm)]

theorem sections_setScalar (c : Sec) (k : Key) (v : CfgVal) :
    (setScalar c k v).sections = c.sections := by
  cases c with
  | mk sc subs =>
      rw [setScalar]
      split <;> rfl

theorem scalars_fst_setScalar (c : Sec) (k : Key) (v : CfgVal) :
    (setScalar c k v).scalars.map Prod.fst
      = c.scalars.map Prod.fst
        ++ (if hasScalar c k then [] else [k]) := by
  cases c with
  | mk sc subs =>
      rw [setScalar]
      split
      · next h =>
          simp only [Sec.scalars, map_fst_set, h, if_pos, List.append_nil]
      · next h =>
          simp only [Sec.scalars, List.map_append, h, if_neg]
          rfl

theorem lookupScalar_delScalar_self (c : Sec) (k : Key) :
    lookupScalar (delScalar c k) k = none := by
  cases c with
  | mk sc subs =>
      unfold delScalar lookupScalar
      simp only [Sec.scalars]
      rw [find?_filter_key_self]
      rfl

theorem lookupScalar_delScalar_ne (c : Sec) (k k2 : Key) (h : ¬ k2 = k) :
    lookupScalar (delScalar c k) k2 = lookupScalar c k2 := by
  cases c with
  | mk sc subs =>
      unfold delScalar lookupScalar
      simp only [Sec.scalars]
      rw [find?_filter_key_ne _ _ _ h]

theorem sections_delScalar (c : Sec) (k : Key) :
    (delScalar c k).sections = c.sections := by
  cases c with
  | mk sc subs => rfl

theorem lookupScalar_delIfPresent_ne (c : Sec) (k k2 : Key) (h : ¬ k2 = k) :
    lookupScalar (delIfPresent c k) k2 = lookupScalar c k2 := by
  cases c with
  | mk sc subs =>
      rw [delIfPresent]
      split
      · unfold lookupScalar
        simp only [Sec.scalars]
        rw [find?_filter_key_ne _ _ _ h]
      · rfl

theorem lookupSection_delIfPresent_ne (c : Sec) (k k2 : Key) (h : ¬ k2 = k) :
    lookupSection (delIfPresent c k) k2 = lookupSection c k2 := by
  cases c with
  | mk sc subs =>
      rw [delIfPresent]
      split
      · unfold lookupSection
        simp only [Sec.sections]
        rw [find?_filter_key_ne _ _ _ h]
      · rfl

theorem lookupScalar_renameTotal_ne (c : Sec) (old new k2 : Key)
    (h1 : ¬ k2 = old) (h2 : ¬ k2 = new) :
    lookupScalar (renameTotal c old new) k2 = lookupScalar c k2 := by
  cases c with
  | mk sc subs =>
      rw [renameTotal]
      split
      · unfold lookupScalar
        simp only [Sec.scalars]
        rw [find?_map_rename_ne _ _ _ _ h1 h2]
      · rfl

theorem lookupSection_renameTotal_ne (c : Sec) (old new k2 : Key)
    (h1 : ¬ k2 = old) (h2 : ¬ k2 = new) :
    lookupSection (renameTotal c old new) k2 = lookupSection c k2 := by
  cases c with
  | mk sc subs =>
      rw [renameTotal]
      split
      · rfl
      · unfold lookupSection
        simp only [Sec.sections]
        rw [find?_map_rename_ne _ _ _ _ h1 h2]

theorem mem'_renameTotal_old (c : Sec) (old new : Key) (hne : ¬ old = new)
    (hx : hasScalar c old = false ∨ hasSection c old = false) :
    mem' (renameTotal c old new) old = false := by
  cases c with
  | mk sc subs =>
      rw [renameTotal]
      split
      · next h =>
          have hsec : hasSection (Sec.mk sc subs) old = false := by
            rcases hx with hx | hx
            · rw [h] at hx; cases hx
            · exact hx
          unfold mem' hasScalar lookupScalar hasSection lookupSection at *
          simp only [Sec.scalars, Sec.sections] at *
          rw [find?_map_rename_old _ _ _ hne]
          simpa using hsec
      · next h =>
          unfold mem' hasScalar lookupScalar hasSection lookupSection at *
          simp only [Sec.scalars, Sec.sections] at *
          rw [find?_map_rename_old _ _ _ hne]
          simp only [Bool.not_eq_true] at h
          simpa using h

theorem lookupScalar_renameTotal_new (c : Sec) (old new : Key)
    (hold : hasScalar c old = true) (hnew : hasScalar c new = false) :
    lookupScalar (renameTotal c old new) new = lookupScalar c old := by
  cases c with
  | mk sc subs =>
      rw [renameTotal, if_pos hold]
      unfold hasScalar lookupScalar at hnew
      unfold lookupScalar
      simp only [Sec.scalars] at hnew ⊢
      have hn : sc.find? (fun p => p.1 == new) = none := by
        cases hf : sc.find? (fun p => p.1 == new) with
        | none => rfl
        | some x => rw [hf] at hnew; simp at hnew
      rw [find?_map_rename_new _ _ _ hn]
      cases sc.find? (fun p => p.1 == old) <;> rfl

theorem mem'_renameTotal_new_of_section (c : Sec) (old new : Key)
    (hold : hasScalar c old = false) (holds : hasSection c old = true)
    (hnews : hasSection c new = false) :
    mem' (renameTotal c old new) new = true := by
  cases c with
  | mk sc subs =>
      rw [renameTotal]
      split
      · next h => rw [hold] at h; cases h
      · unfold mem' hasScalar hasSection lookupScalar lookupSection at *
        simp only [Sec.scalars, Sec.sections] at *
        have hn : subs.find? (fun p => p.1 == new) = none := by
          cases hf : subs.find? (fun p => p.1 == new) with
          | none => rfl
          | some x => rw [hf] at hnews; simp at hnews
        rw [find?_map_rename_new _ _ _ hn]
        cases hf : subs.find? (fun p => p.1 == old) with
        | none => rw [hf] at holds; simp at holds
        | some x => simp

/-! ### Well-formedness preservation through the fix_access_exs walk -/

theorem axWF_mk (sc : List (Key × CfgVal)) (subs : List (Key × Sec)) :
    axWF (.mk sc subs)
      = (axShaped ((sc.find? (fun p => p.1 == Key.access_exs)).map Prod.snd)
          && !(subs.any (fun p => p.1 == Key.access_exs))
          && axWFsubs subs) := by
  rw [axWF]

theorem axWFsubs_cons (k : Key) (s : Sec) (rest : List (Key × Sec)) :
    axWFsubs ((k, s) :: rest) = (axWF s && axWFsubs rest) := by
  rw [axWFsubs]

theorem axShaped_reprObj (o : PyObj) : axShaped (some (reprObj o)) = true := by
  cases o with
  | list xs => cases xs <;> simp [reprObj, axShaped]
  | dict m => simp [reprObj, axShaped]

theorem literalEval_shaped (o : Option CfgVal) (d : CfgVal)
    (hs : axShaped o = true) (hd : ¬ ∃ s, d = CfgVal.str s) :
    ∃ obj, literalEval (o.getD d) = some obj := by
  cases o with
  | none =>
      cases d with
      | str s => exact absurd ⟨s, rfl⟩ hd
      | axEmptyList => exact ⟨.list [], rfl⟩
      | axList xs => exact ⟨.list xs, rfl⟩
      | axDict m => exact ⟨.dict m, rfl⟩
  | some v =>
      cases v with
      | str s => simp [axShaped] at hs
      | axEmptyList => exact ⟨.list [], rfl⟩
      | axList xs => exact ⟨.list xs, rfl⟩
      | axDict m => exact ⟨.dict m, rfl⟩

theorem axWFsubs_find (subs : List (Key × Sec)) (k : Key) (t : Sec)
    (hsubs : axWFsubs subs = true)
    (hl : (subs.find? (fun p => p.1 == k)).map Prod.snd = some t) :
    axWF t = true := by
  induction subs with
  | nil => simp at hl
  | cons a rest ih =>
      obtain ⟨a1, a2⟩ := a
      rw [axWFsubs_cons] at hsubs
      rcases andT hsubs with ⟨h1, h2⟩
      by_cases hk : a1 = k
      · simp only [List.find?_cons, beqT hk] at hl
        simp at hl
        exact hl ▸ h1
      · simp only [List.find?_cons, beqF hk] at hl
        exact ih h2 hl

theorem axWF_child (c : Sec) (k : Key) (t : Sec)
    (hwf : axWF c = true) (hl : lookupSection c k = some t) : axWF t = true := by
  cases c with
  | mk sc subs =>
      rw [axWF_mk] at hwf
      rcases andT hwf with ⟨_, h3⟩
      unfold lookupSection at hl
      simp only [Sec.sections] at hl
      exact axWFsubs_find subs k t h3 hl

theorem any_fst_map_replace (l : List (Key × Sec)) (k q : Key) (t2 : Sec) :
    (l.map (fun p => if p.1 == k then (k, t2) else p)).any (fun p => p.1 == q)
      = l.any (fun p => p.1 == q) := by
  induction l with
  | nil => rfl
  | cons a l ih =>
      by_cases ha : a.1 = k
      · simp only [List.map_cons, if_pos (beqT ha), List.any_cons, ih]
        simp only [ha]
      · simp only [List.map_cons, if_neg (ne_true_of_eq_false (beqF ha)),
          List.any_cons, ih]

theorem axWF_setScalar_ax (c : Sec) (v : CfgVal)
    (hwf : axWF c = true) (hs : axShaped (some v) = true) :
    axWF (setScalar c Key.access_exs v) = true := by
  cases c with
  | mk sc subs =>
      rw [axWF_mk] at hwf
      rcases andT hwf with ⟨h12, h3⟩
      rcases andT h12 with ⟨_, h2⟩
      rw [setScalar]
      by_cases hk : hasScalar (Sec.mk sc subs) Key.access_exs = true
      · rw [if_pos hk]
        simp only [Sec.scalars, Sec.sections]
        rw [axWF_mk]
        unfold hasScalar lookupScalar at hk
        simp only [Sec.scalars] at hk
        rw [find?_map_set_eq _ _ _ (by simpa using hk)]
        simp only [Option.map, hs, h2, h3, Bool.and_self]
      · rw [if_neg hk]
        simp only [Sec.scalars, Sec.sections]
        rw [axWF_mk]
        unfold hasScalar lookupScalar at hk
        simp only [Sec.scalars] at hk
        have hnone : sc.find? (fun p => p.1 == Key.access_exs) = none := by
          cases hf : sc.find? (fun p => p.1 == Key.access_exs) with
          | none => rfl
          | some x => rw [hf] at hk; simp at hk
        rw [find?_append_none _ _ _ hnone]
        simp only [List.find?_cons, beqT (rfl : Key.access_exs = Key.access_exs)]
        simp only [Option.map, hs, h2, h3, Bool.and_self]

theorem axWFsubs_map_replace (l : List (Key × Sec)) (k : Key) (t2 : Sec)
    (hl : axWFsubs l = true) (ht : axWF t2 = true) :
    axWFsubs (l.map (fun p => if p.1 == k then (k, t2) else p)) = true := by
  induction l with
  | nil => rfl
  | cons a l ih =>
      obtain ⟨a1, a2⟩ := a
      rw [axWFsubs_cons] at hl
      rcases andT hl with ⟨h1, h2⟩
      by_cases ha : a1 = k
      · simp only [List.map_cons, if_pos (beqT ha)]
        rw [axWFsubs_cons]
        simp only [ht, ih h2, Bool.and_self]
      · simp only [List.map_cons, if_neg (ne_true_of_eq_false (beqF ha))]
        rw [axWFsubs_cons]
        simp only [h1, ih h2, Bool.and_self]

theorem axWFsubs_append_one (l : List (Key × Sec)) (k : Key) (t2 : Sec)
    (hl : axWFsubs l = true) (ht : axWF t2 = true) :
    axWFsubs (l ++ [(k, t2)]) = true := by
  induction l with
  | nil =>
      simp only [List.nil_append]
      rw [axWFsubs_cons]
      have he : axWFsubs [] = true := rfl
      simp only [ht, he, Bool.and_self]
  | cons a l ih =>
      obtain ⟨a1, a2⟩ := a
      rw [axWFsubs_cons] at hl
      rcases andT hl with ⟨h1, h2⟩
      rw [List.cons_append, axWFsubs_cons]
      simp only [h1, ih h2, Bool.and_self]

theorem axWF_setSection_ne_ax (c : Sec) (k : Key) (t2 : Sec)
    (hwf : axWF c = true) (ht : axWF t2 = true) (hk : ¬ k = Key.access_exs) :
    axWF (setSection c k t2) = true := by
  cases c with
  | mk sc subs =>
      rw [axWF_mk] at hwf
      rcases andT hwf with ⟨h12, h3⟩
      rcases andT h12 with ⟨h1, h2⟩
      rw [setSection]
      by_cases hh : hasSection (Sec.mk sc subs) k = true
      · rw [if_pos hh]
        simp only [Sec.scalars, Sec.sections]
        rw [axWF_mk, any_fst_map_replace]
        simp only [h1, h2, axWFsubs_map_replace subs k t2 h3 ht, Bool.and_self]
      · rw [if_neg hh]
        simp only [Sec.scalars, Sec.sections]
        rw [axWF_mk]
        have hany : (subs ++ [(k, t2)]).any (fun p => p.1 == Key.access_exs)
            = subs.any (fun p => p.1 == Key.access_exs) := by
          rw [List.any_append]
          simp [List.any_cons, beqF hk]
        rw [hany]
        simp only [h1, h2, axWFsubs_append_one subs k t2 h3 ht, Bool.and_self]

theorem axShaped_of_axWF (c : Sec)
    (hwf : axWF c = true) :
    axShaped (lookupScalar c Key.access_exs) = true := by
  cases c with
  | mk sc subs =>
      rw [axWF_mk] at hwf
      rcases andT hwf with ⟨h12, _⟩
      rcases andT h12 with ⟨h1, _⟩
      exact h1

theorem fixElif_spec (s : Sec) (tname entry : String) (depth : ℕ)
    (hwf : axWF s = true) :
    fixElif s tname entry depth ≠ Except.error PyErr.valueError ∧
    (∀ s2 brk, fixElif s tname entry depth = Except.ok (s2, brk) →
      axWF s2 = true) := by
  rw [fixElif]
  by_cases hg : getEqStr (lookupScalar s Key.task_name) tname = true
  · rw [if_pos hg]
    cases htc : lookupScalar s Key.task_class with
    | none =>
        exact ⟨by simp, fun s2 brk hok => by simp at hok⟩
    | some tc =>
        dsimp only
        by_cases hgi : (tc == CfgVal.str "LoopTask"
          && !(["start", "stop", "step", "points_number", "iterable"].contains entry)) = true
        · rw [if_pos hgi]
          cases hts : lookupSection s Key.task with
          | none => exact ⟨by simp, fun s2 brk hok => by simp at hok⟩
          | some t =>
              dsimp only
              have hwt : axWF t = true := axWF_child s Key.task t hwf hts
              obtain ⟨obj, hobj⟩ := literalEval_shaped
                (lookupScalar t Key.access_exs) (.axDict [])
                (axShaped_of_axWF t hwt) (by rintro ⟨u, hu⟩; cases hu)
              rw [hobj]
              cases obj with
              | list xs => exact ⟨by simp, fun s2 brk hok => by simp at hok⟩
              | dict m =>
                  dsimp only
                  refine ⟨by simp, ?_⟩
                  intro s2 brk hok
                  simp only [Except.ok.injEq, Prod.mk.injEq] at hok
                  rw [← hok.1]
                  exact axWF_setSection_ne_ax s Key.task _ hwf
                    (axWF_setScalar_ax t _ hwt (axShaped_reprObj _))
                    (by intro hh; cases hh)
        · rw [if_neg hgi]
          obtain ⟨obj, hobj⟩ := literalEval_shaped
            (lookupScalar s Key.access_exs) (.axDict [])
            (axShaped_of_axWF s hwf) (by rintro ⟨u, hu⟩; cases hu)
          rw [hobj]
          cases obj with
          | list xs => exact ⟨by simp, fun s2 brk hok => by simp at hok⟩
          | dict m =>
              dsimp only
              refine ⟨by simp, ?_⟩
              intro s2 brk hok
              simp only [Except.ok.injEq, Prod.mk.injEq] at hok
              rw [← hok.1]
              exact axWF_setScalar_ax s _ hwf (axShaped_reprObj _)
  · rw [if_neg hg]
    exact ⟨by simp, fun s2 brk hok => by
      simp only [Except.ok.injEq, Prod.mk.injEq] at hok
      rw [← hok.1]
      exact hwf⟩

theorem any_fst_eq_of_map_fst (l1 l2 : List (Key × Sec)) (q : Key)
    (h : l1.map Prod.fst = l2.map Prod.fst) :
    l1.any (fun p => p.1 == q) = l2.any (fun p => p.1 == q) := by
  induction l1 generalizing l2 with
  | nil =>
      cases l2 with
      | nil => rfl
      | cons b l2 => simp at h
  | cons a l1 ih =>
      cases l2 with
      | nil => simp at h
      | cons b l2 =>
          simp only [List.map_cons, List.cons.injEq] at h
          simp only [List.any_cons, h.1, ih l2 h.2]

theorem fix_spec (n : ℕ) :
    (∀ sec ex depth, secSize sec ≤ n → axWF sec = true →
      (splitUnderscore ex).length = 2 →
      (fixAccessExs sec ex depth ≠ Except.error PyErr.valueError ∧
       ∀ r, fixAccessExs sec ex depth = Except.ok r →
         r.scalars = sec.scalars ∧
         r.sections.map Prod.fst = sec.sections.map Prod.fst ∧
         axWF r = true)) ∧
    (∀ subs ex tname entry depth, subsSize subs ≤ n → axWFsubs subs = true →
      (splitUnderscore ex).length = 2 →
      (fixLoop subs ex tname entry depth ≠ Except.error PyErr.valueError ∧
       ∀ r, fixLoop subs ex tname entry depth = Except.ok r →
         r.1.map Prod.fst = subs.map Prod.fst ∧
         axWFsubs r.1 = true)) := by
  induction n using Nat.strong_induction_on with
  | _ n ih =>
    constructor
    · intro sec ex depth hsz hwf hsp
      cases sec with
      | mk sc subs =>
        rw [secSize_mk] at hsz
        rw [fixAccessExs]
        obtain ⟨a, b, hab⟩ := List.length_eq_two.mp hsp
        rw [hab]
        dsimp only [unpack2]
        rw [axWF_mk] at hwf
        rcases andT hwf with ⟨h12, h3⟩
        rcases andT h12 with ⟨h1, h2⟩
        have hihL := (ih (n - 1) (by omega)).2 subs ex a b depth
          (by omega) h3 hsp
        cases hfl : fixLoop (Sec.sections (Sec.mk sc subs)) ex a b depth with
        | error e =>
            refine ⟨?_, fun r hok => by simp at hok⟩
            intro hbad
            simp only [Except.error.injEq] at hbad
            rw [Sec.sections] at hfl
            apply hihL.1
            rw [hfl, hbad]
        | ok r =>
            rw [Sec.sections] at hfl
            obtain ⟨hkeys, hwfr⟩ := hihL.2 r hfl
            refine ⟨by simp, fun r2 hok => ?_⟩
            simp only [Except.ok.injEq] at hok
            rw [← hok]
            refine ⟨rfl, ?_, ?_⟩
            · simp only [Sec.sections]
              exact hkeys
            · rw [axWF_mk]
              rw [any_fst_eq_of_map_fst r.1 subs Key.access_exs hkeys]
              simp only [Sec.scalars, h1, h2, hwfr, Bool.and_true, Bool.and_self]
    · intro subs ex tname entry depth hsz hsubs hsp
      cases subs with
      | nil =>
          rw [fixLoop]
          refine ⟨by simp, fun r hok => ?_⟩
          simp only [Except.ok.injEq] at hok
          rw [← hok]
          exact ⟨rfl, rfl⟩
      | cons p rest =>
          obtain ⟨k, s⟩ := p
          rw [subsSize] at hsz
          rw [axWFsubs_cons] at hsubs
          rcases andT hsubs with ⟨h1, h2⟩
          rw [fixLoop]
          obtain ⟨obj, hobj⟩ := literalEval_shaped
            (lookupScalar s Key.access_exs) CfgVal.axEmptyList
            (axShaped_of_axWF s h1) (by rintro ⟨u, hu⟩; cases hu)
          rw [hobj]
          dsimp only
          by_cases hoc : objContains obj ex = true
          · rw [if_pos hoc]
            cases obj with
            | dict m =>
                exact ⟨by simp, fun r hok => by simp at hok⟩
            | list xs =>
                dsimp only
                have hwf1 : axWF (setScalar s Key.access_exs
                    (reprObj (PyObj.list (xs.erase ex)))) = true :=
                  axWF_setScalar_ax s _ h1 (axShaped_reprObj _)
                have hihA := (ih (n - 1) (by omega)).1
                  (setScalar s Key.access_exs (reprObj (PyObj.list (xs.erase ex))))
                  ex (depth + 1) (by rw [secSize_setScalar]; omega) hwf1 hsp
                cases hfa : fixAccessExs
                    (setScalar s Key.access_exs (reprObj (PyObj.list (xs.erase ex))))
                    ex (depth + 1) with
                | error e =>
                    refine ⟨?_, fun r hok => by simp at hok⟩
                    intro hbad
                    simp only [Except.error.injEq] at hbad
                    apply hihA.1
                    rw [hfa, hbad]
                | ok s2 =>
                    obtain ⟨_, _, hwfs2⟩ := hihA.2 s2 hfa
                    have hihL := (ih (n - 1) (by omega)).2 rest ex tname entry
                      (depth + 1) (by omega) h2 hsp
                    cases hfl : fixLoop rest ex tname entry (depth + 1) with
                    | error e =>
                        refine ⟨?_, fun r hok => by simp at hok⟩
                        intro hbad
                        simp only [Except.error.injEq] at hbad
                        apply hihL.1
                        rw [hfl, hbad]
                    | ok r =>
                        obtain ⟨hkeys, hwfr⟩ := hihL.2 r hfl
                        refine ⟨by simp, fun r2 hok => ?_⟩
                        simp only [Except.ok.injEq] at hok
                        rw [← hok]
                        refine ⟨?_, ?_⟩
                        · simp only [List.map_cons, hkeys]
                        · rw [axWFsubs_cons]
                          simp only [hwfs2, hwfr, Bool.and_self]
          · rw [if_neg hoc]
            have hspec := fixElif_spec s tname entry depth h1
            cases hfe : fixElif s tname entry depth with
            | error e =>
                refine ⟨?_, fun r hok => by simp at hok⟩
                intro hbad
                simp only [Except.error.injEq] at hbad
                apply hspec.1
                rw [hfe, hbad]
            | ok q =>
                obtain ⟨s2, brk⟩ := q
                have hwfs2 := hspec.2 s2 brk hfe
                cases brk with
                | true =>
                    dsimp only
                    refine ⟨by simp, fun r2 hok => ?_⟩
                    simp only [Except.ok.injEq] at hok
                    rw [← hok]
                    refine ⟨rfl, ?_⟩
                    rw [axWFsubs_cons]
                    simp only [hwfs2, h2, Bool.and_self]
                | false =>
                    dsimp only
                    have hihL := (ih (n - 1) (by omega)).2 rest ex tname entry
                      depth (by omega) h2 hsp
                    cases hfl : fixLoop rest ex tname entry depth with
                    | error e =>
                        refine ⟨?_, fun r hok => by simp at hok⟩
                        intro hbad
                        simp only [Except.error.injEq] at hbad
                        apply hihL.1
                        rw [hfl, hbad]
                    | ok r =>
                        obtain ⟨hkeys, hwfr⟩ := hihL.2 r hfl
                        refine ⟨by simp, fun r2 hok => ?_⟩
                        simp only [Except.ok.injEq] at hok
                        rw [← hok]
                        refine ⟨?_, ?_⟩
                        · simp only [List.map_cons, hkeys]
                        · rw [axWFsubs_cons]
                          simp only [hwfs2, hwfr, Bool.and_self]

theorem lookupScalar_congr (c2 c : Sec) (k : Key)
    (h : c2.scalars = c.scalars) : lookupScalar c2 k = lookupScalar c k := by
  unfold lookupScalar
  rw [h]

theorem fixFor_spec (exs : List String) (c : Sec)
    (hwf : axWF c = true) (hsp : ∀ x ∈ exs, (splitUnderscore x).length = 2) :
    fixFor c exs ≠ Except.error PyErr.valueError ∧
    ∀ c2, fixFor c exs = Except.ok c2 →
      c2.scalars = c.scalars ∧
      c2.sections.map Prod.fst = c.sections.map Prod.fst ∧ axWF c2 = true := by
  induction exs generalizing c with
  | nil =>
      rw [fixFor]
      refine ⟨by simp, fun c2 hok => ?_⟩
      simp only [Except.ok.injEq] at hok
      rw [← hok]
      exact ⟨rfl, rfl, hwf⟩
  | cons x rest ih =>
      rw [fixFor]
      have hA := (fix_spec (secSize c)).1 c x 1 le_rfl hwf (hsp x (by simp))
      cases hfa : fixAccessExs c x 1 with
      | error e =>
          refine ⟨?_, fun c2 hok => by simp at hok⟩
          intro hbad
          simp only [Except.error.injEq] at hbad
          apply hA.1
          rw [hfa, hbad]
      | ok c1 =>
          obtain ⟨hsc, hsec, hwf1⟩ := hA.2 c1 hfa
          have ihr := ih c1 hwf1 (fun y hy => hsp y (by simp [hy]))
          refine ⟨ihr.1, fun c2 hok => ?_⟩
          obtain ⟨h1, h2, h3⟩ := ihr.2 c2 hok
          exact ⟨h1.trans hsc, h2.trans hsec, h3⟩

theorem accessBlock_spec (c : Sec) (hwf : axWF c = true) (hsp : splitOK c = true) :
    (accessBlock c).2 ≠ some PyErr.valueError ∧
    (∀ k, ¬ k = Key.access_exs →
      lookupScalar (accessBlock c).1 k = lookupScalar c k) ∧
    (accessBlock c).1.sections.map Prod.fst = c.sections.map Prod.fst := by
  rw [accessBlock]
  by_cases hax : hasScalar c Key.access_exs = true
  · rw [if_pos hax]
    cases hv : lookupScalar c Key.access_exs with
    | none =>
        unfold hasScalar at hax
        rw [hv] at hax
        simp at hax
    | some v =>
        have hshape : axShaped (some v) = true := by
          have hh := axShaped_of_axWF c hwf
          rw [hv] at hh
          exact hh
        simp only [hv, Option.getD_some]
        cases v with
        | str u => simp [axShaped] at hshape
        | axEmptyList =>
            dsimp only [isEmptyListRepr]
            rw [if_pos rfl]
            refine ⟨by simp, fun k hk => ?_, ?_⟩
            · exact lookupScalar_delScalar_ne c Key.access_exs k hk
            · rw [sections_delScalar]
        | axDict m =>
            dsimp only [isEmptyListRepr, containsBrace]
            rw [if_neg Bool.false_ne_true, if_pos rfl]
            exact ⟨by simp, fun k hk => rfl, rfl⟩
        | axList xs =>
            dsimp only [isEmptyListRepr]
            rw [if_neg Bool.false_ne_true]
            by_cases hbr : containsBrace (CfgVal.axList xs) = true
            · rw [if_pos hbr]
              exact ⟨by simp, fun k hk => rfl, rfl⟩
            · rw [if_neg hbr]
              have hall : ∀ x ∈ xs, (splitUnderscore x).length = 2 := by
                unfold splitOK at hsp
                rw [hv] at hsp
                intro x hx
                have hx2 := (List.all_eq_true.mp hsp) x hx
                simpa using hx2
              have hF := fixFor_spec xs c hwf hall
              dsimp only [literalEval, objIter]
              cases hff : fixFor c xs with
              | error e =>
                  refine ⟨?_, fun k hk => rfl, rfl⟩
                  intro hbad
                  simp only [Option.some.injEq] at hbad
                  apply hF.1
                  rw [hff, hbad]
              | ok c2 =>
                  obtain ⟨hsc, hsec, _⟩ := hF.2 c2 hff
                  have hv2 : lookupScalar c2 Key.access_exs
                      = some (CfgVal.axList xs) := by
                    rw [lookupScalar_congr c2 c Key.access_exs hsc, hv]
                  have hbrf : containsBrace (CfgVal.axList xs) = false := by
                    cases hb : containsBrace (CfgVal.axList xs) with
                    | false => rfl
                    | true => exact absurd hb hbr
                  simp only [hv2, Option.getD_some, hbrf, Bool.not_false]
                  simp only [if_true]
                  refine ⟨by simp, fun k hk => ?_, ?_⟩
                  · rw [lookupScalar_delScalar_ne c2 Key.access_exs k hk,
                      lookupScalar_congr c2 c k hsc]
                  · rw [sections_delScalar]
                    exact hsec
  · rw [if_neg hax]
    exact ⟨by simp, fun k hk => rfl, rfl⟩

/-! ### Key presence through the pipeline -/

theorem mem'_of_lookups (c2 c : Sec) (k : Key)
    (h1 : lookupScalar c2 k = lookupScalar c k)
    (h2 : lookupSection c2 k = lookupSection c k) :
    mem' c2 k = mem' c k := by
  unfold mem' hasScalar hasSection
  rw [h1, h2]

theorem lookupSection_congr (c2 c : Sec) (k : Key)
    (h : c2.sections = c.sections) : lookupSection c2 k = lookupSection c k := by
  unfold lookupSection
  rw [h]

theorem hasScalar_of_lookup (c2 c : Sec) (k : Key)
    (h : lookupScalar c2 k = lookupScalar c k) :
    hasScalar c2 k = hasScalar c k := by
  unfold hasScalar
  rw [h]

theorem hasSection_of_lookup (c2 c : Sec) (k : Key)
    (h : lookupSection c2 k = lookupSection c k) :
    hasSection c2 k = hasSection c k := by
  unfold hasSection
  rw [h]

theorem find?_none_of_any_not_children {α : Type} (l : List (Key × α)) (j : ℕ)
    (h : l.any (fun p => isChildrenKey p.1) = false) :
    l.find? (fun p => p.1 == Key.children j) = none := by
  induction l with
  | nil => rfl
  | cons a l ih =>
      simp only [List.any_cons, Bool.or_eq_false_iff] at h
      have ha : ¬ a.1 = Key.children j := by
        intro hh
        rw [hh] at h
        exact absurd h.1 (by simp [isChildrenKey])
      simp only [List.find?_cons, beqF ha]
      exact ih (by simpa using h.2)

theorem noChildrenKeys_mem' (c : Sec) (h : noChildrenKeys c = true) (j : ℕ) :
    mem' c (Key.children j) = false := by
  cases c with
  | mk sc subs =>
      unfold noChildrenKeys at h
      simp only [Sec.scalars, Sec.sections] at h
      rcases andT h with ⟨h1, h2⟩
      simp only [Bool.not_eq_true'] at h1 h2
      unfold mem' hasScalar hasSection lookupScalar lookupSection
      simp only [Sec.scalars, Sec.sections]
      rw [find?_none_of_any_not_children sc j h1,
        find?_none_of_any_not_children subs j h2]
      rfl

theorem mem_keys_of_find?_isSome {α : Type} (l : List (Key × α)) (k : Key)
    (h : (l.find? (fun p => p.1 == k)).isSome = true) :
    k ∈ l.map Prod.fst := by
  induction l with
  | nil => simp at h
  | cons a l ih =>
      by_cases ha : a.1 = k
      · simp [← ha]
      · simp only [List.find?_cons, beqF ha] at h
        simp [ih h]

theorem mem'_mem_keysOf (c : Sec) (k : Key) (h : mem' c k = true) :
    k ∈ keysOf c := by
  unfold mem' hasScalar hasSection lookupScalar lookupSection at h
  rcases Bool.or_eq_true_iff.mp h with h1 | h1
  · unfold keysOf
    refine List.mem_append.mpr (Or.inl ?_)
    apply mem_keys_of_find?_isSome
    simpa using h1
  · unfold keysOf
    refine List.mem_append.mpr (Or.inr ?_)
    apply mem_keys_of_find?_isSome
    simpa using h1

theorem nodup_scalar_not_section (c : Sec) (k : Key)
    (hnd : keysNodup c) (hs : hasScalar c k = true) : hasSection c k = false := by
  cases hsec : hasSection c k with
  | false => rfl
  | true =>
      exfalso
      unfold keysNodup keysOf at hnd
      have hd := List.disjoint_of_nodup_append hnd
      unfold hasScalar lookupScalar at hs
      unfold hasSection lookupSection at hsec
      have h1 : k ∈ c.scalars.map Prod.fst :=
        mem_keys_of_find?_isSome _ _ (by simpa using hs)
      have h2 : k ∈ c.sections.map Prod.fst :=
        mem_keys_of_find?_isSome _ _ (by simpa using hsec)
      exact hd h1 h2

theorem hasScalar_renameTotal_ne (c : Sec) (old new k2 : Key)
    (h1 : ¬ k2 = old) (h2 : ¬ k2 = new) :
    hasScalar (renameTotal c old new) k2 = hasScalar c k2 :=
  hasScalar_of_lookup _ _ _ (lookupScalar_renameTotal_ne c old new k2 h1 h2)

theorem hasSection_renameTotal_ne (c : Sec) (old new k2 : Key)
    (h1 : ¬ k2 = old) (h2 : ¬ k2 = new) :
    hasSection (renameTotal c old new) k2 = hasSection c k2 :=
  hasSection_of_lookup _ _ _ (lookupSection_renameTotal_ne c old new k2 h1 h2)

theorem mem'_renameTotal_ne (c : Sec) (old new k2 : Key)
    (h1 : ¬ k2 = old) (h2 : ¬ k2 = new) :
    mem' (renameTotal c old new) k2 = mem' c k2 :=
  mem'_of_lookups _ _ _ (lookupScalar_renameTotal_ne c old new k2 h1 h2)
    (lookupSection_renameTotal_ne c old new k2 h1 h2)

/-! ### The children rename loop -/

theorem renameChildren_preserve_lt (i0 : ℕ) (k : Key)
    (hk : ∀ j : ℕ, i0 < j → ¬ k = Key.children_task j ∧ ¬ k = Key.children j) :
    ∀ f c i, i0 < i →
      lookupScalar (renameChildren c i f) k = lookupScalar c k ∧
      lookupSection (renameChildren c i f) k = lookupSection c k := by
  intro f
  induction f with
  | zero =>
      intro c i hi
      rw [renameChildren]
      exact ⟨rfl, rfl⟩
  | succ f ihf =>
      intro c i hi
      rw [renameChildren]
      by_cases hm : mem' c (Key.children_task i) = true
      · rw [if_pos hm]
        have h1 := lookupScalar_renameTotal_ne c (Key.children_task i)
          (Key.children i) k (hk i hi).1 (hk i hi).2
        have h2 := lookupSection_renameTotal_ne c (Key.children_task i)
          (Key.children i) k (hk i hi).1 (hk i hi).2
        obtain ⟨ih1, ih2⟩ := ihf
          (renameTotal c (Key.children_task i) (Key.children i)) (i + 1) (by omega)
        exact ⟨ih1.trans h1, ih2.trans h2⟩
      · rw [if_neg hm]
        exact ⟨rfl, rfl⟩

theorem renameChildren_preserve (k : Key)
    (hk : ∀ j : ℕ, ¬ k = Key.children_task j ∧ ¬ k = Key.children j) :
    ∀ f c i,
      lookupScalar (renameChildren c i f) k = lookupScalar c k ∧
      lookupSection (renameChildren c i f) k = lookupSection c k := by
  intro f
  induction f with
  | zero =>
      intro c i
      rw [renameChildren]
      exact ⟨rfl, rfl⟩
  | succ f ihf =>
      intro c i
      rw [renameChildren]
      by_cases hm : mem' c (Key.children_task i) = true
      · rw [if_pos hm]
        have h1 := lookupScalar_renameTotal_ne c (Key.children_task i)
          (Key.children i) k (hk i).1 (hk i).2
        have h2 := lookupSection_renameTotal_ne c (Key.children_task i)
          (Key.children i) k (hk i).1 (hk i).2
        obtain ⟨ih1, ih2⟩ := ihf
          (renameTotal c (Key.children_task i) (Key.children i)) (i + 1)
        exact ⟨ih1.trans h1, ih2.trans h2⟩
      · rw [if_neg hm]
        exact ⟨rfl, rfl⟩

theorem mem'_renameTotal_new_step (c : Sec) (i : ℕ)
    (hold : mem' c (Key.children_task i) = true)
    (hnew : mem' c (Key.children i) = false) :
    mem' (renameTotal c (Key.children_task i) (Key.children i))
      (Key.children i) = true := by
  have hboth : hasScalar c (Key.children i) = false
      ∧ hasSection c (Key.children i) = false := by
    unfold mem' at hnew
    exact Bool.or_eq_false_iff.mp hnew
  cases hsc : hasScalar c (Key.children_task i) with
  | true =>
      have h2 : hasScalar (renameTotal c (Key.children_task i) (Key.children i))
          (Key.children i) = true := by
        unfold hasScalar
        rw [lookupScalar_renameTotal_new c _ _ hsc hboth.1]
        exact hsc
      unfold mem'
      rw [h2]
      rfl
  | false =>
      have hsec : hasSection c (Key.children_task i) = true := by
        unfold mem' at hold
        rw [hsc] at hold
        simpa using hold
      exact mem'_renameTotal_new_of_section c _ _ hsc hsec hboth.2

theorem renameChildren_spec (i0 : ℕ) :
    ∀ (c : Sec) (i f : ℕ),
      (∀ j, i ≤ j → j ≤ i + i0 → mem' c (Key.children_task j) = true) →
      (∀ j, i ≤ j → mem' c (Key.children j) = false) →
      (∀ j, i ≤ j → hasScalar c (Key.children_task j) = false
         ∨ hasSection c (Key.children_task j) = false) →
      i0 + 1 ≤ f →
      mem' (renameChildren c i f) (Key.children (i + i0)) = true ∧
      mem' (renameChildren c i f) (Key.children_task (i + i0)) = false := by
  induction i0 with
  | zero =>
      intro c i f hcons hnoc hxor hf
      obtain ⟨f2, rfl⟩ : ∃ f2, f = f2 + 1 := ⟨f - 1, by omega⟩
      rw [renameChildren, if_pos (hcons i le_rfl (by omega))]
      have hnew := mem'_renameTotal_new_step c i (hcons i le_rfl (by omega))
        (hnoc i le_rfl)
      have hold := mem'_renameTotal_old c (Key.children_task i) (Key.children i)
        (fun hh => Key.noConfusion hh) (hxor i le_rfl)
      have hp1 := renameChildren_preserve_lt i (Key.children i)
        (fun j hj => ⟨fun hh => Key.noConfusion hh,
          fun hh => by injection hh with h2; omega⟩) f2
        (renameTotal c (Key.children_task i) (Key.children i)) (i + 1) (by omega)
      have hp2 := renameChildren_preserve_lt i (Key.children_task i)
        (fun j hj => ⟨fun hh => by injection hh with h2; omega,
          fun hh => Key.noConfusion hh⟩) f2
        (renameTotal c (Key.children_task i) (Key.children i)) (i + 1) (by omega)
      constructor
      · simp only [Nat.add_zero]
        unfold mem' hasScalar hasSection at hnew ⊢
        rw [hp1.1, hp1.2]
        exact hnew
      · simp only [Nat.add_zero]
        unfold mem' hasScalar hasSection at hold ⊢
        rw [hp2.1, hp2.2]
        exact hold
  | succ i0 ih =>
      intro c i f hcons hnoc hxor hf
      obtain ⟨f2, rfl⟩ : ∃ f2, f = f2 + 1 := ⟨f - 1, by omega⟩
      rw [renameChildren, if_pos (hcons i le_rfl (by omega))]
      have hidx1 : i + (i0 + 1) = (i + 1) + i0 := by omega
      rw [hidx1]
      refine ih (renameTotal c (Key.children_task i) (Key.children i))
        (i + 1) f2 ?_ ?_ ?_ (by omega)
      · intro j hj1 hj2
        rw [mem'_renameTotal_ne c (Key.children_task i) (Key.children i)
          (Key.children_task j) (fun hh => by injection hh with h2; omega)
          (fun hh => Key.noConfusion hh)]
        exact hcons j (by omega) (by omega)
      · intro j hj
        rw [mem'_renameTotal_ne c (Key.children_task i) (Key.children i)
          (Key.children j) (fun hh => Key.noConfusion hh)
          (fun hh => by injection hh with h2; omega)]
        exact hnoc j (by omega)
      · intro j hj
        rw [hasScalar_renameTotal_ne c (Key.children_task i) (Key.children i)
          (Key.children_task j) (fun hh => by injection hh with h2; omega)
          (fun hh => Key.noConfusion hh),
          hasSection_renameTotal_ne c (Key.children_task i) (Key.children i)
          (Key.children_task j) (fun hh => by injection hh with h2; omega)
          (fun hh => Key.noConfusion hh)]
        exact hxor j (by omega)

theorem children_count_le (c : Sec) (i0 : ℕ)
    (h : ∀ j, j ≤ i0 → mem' c (Key.children_task j) = true) :
    i0 + 1 ≤ c.scalars.length + c.sections.length := by
  have hsub : ((List.range (i0 + 1)).map Key.children_task) ⊆ keysOf c := by
    intro k hk
    simp only [List.mem_map, List.mem_range] at hk
    obtain ⟨j, hj, rfl⟩ := hk
    exact mem'_mem_keysOf c _ (h j (by omega))
  have hinj : Function.Injective Key.children_task := by
    intro a b hab
    injection hab
  have hnd : ((List.range (i0 + 1)).map Key.children_task).Nodup :=
    List.Nodup.map hinj (List.nodup_range _)
  have hlen := List.Subperm.length_le (List.subperm_of_subset hnd hsub)
  simpa [keysOf] using hlen

/-! ### Well-formedness of the access_exs data through the pipeline -/

theorem axWF_congr (c2 c : Sec)
    (h1 : lookupScalar c2 Key.access_exs = lookupScalar c Key.access_exs)
    (h2 : c2.sections = c.sections) :
    axWF c2 = axWF c := by
  cases c2 with
  | mk sc2 subs2 =>
      cases c with
      | mk sc subs =>
          unfold lookupScalar at h1
          simp only [Sec.scalars, Sec.sections] at h1 h2
          rw [axWF_mk, axWF_mk, h2]
          have h3 : sc2.find? (fun p => p.1 == Key.access_exs)
              = none ∧ sc.find? (fun p => p.1 == Key.access_exs) = none
              ∨ ((sc2.find? (fun p => p.1 == Key.access_exs)).map Prod.snd
                = (sc.find? (fun p => p.1 == Key.access_exs)).map Prod.snd) :=
            Or.inr h1
          rw [h1]

theorem any_fst_map_rename_ne (l : List (Key × Sec)) (old new q : Key)
    (h1 : ¬ old = q) (h2 : ¬ new = q) :
    (l.map (fun p => if p.1 == old then (new, p.2) else p)).any
        (fun p => p.1 == q)
      = l.any (fun p => p.1 == q) := by
  induction l with
  | nil => rfl
  | cons a l ih =>
      by_cases ha : a.1 = old
      · simp only [List.map_cons, if_pos (beqT ha), List.any_cons, ih,
          beqF (fun hh : new = q => h2 hh),
          beqF (fun hh : a.1 = q => h1 (ha ▸ hh))]
      · simp only [List.map_cons, if_neg (ne_true_of_eq_false (beqF ha)),
          List.any_cons, ih]

theorem axWFsubs_map_rename (l : List (Key × Sec)) (old new : Key)
    (hl : axWFsubs l = true) :
    axWFsubs (l.map (fun p => if p.1 == old then (new, p.2) else p))
      = true := by
  induction l with
  | nil => rfl
  | cons a l ih =>
      obtain ⟨a1, a2⟩ := a
      rw [axWFsubs_cons] at hl
      rcases andT hl with ⟨h1, h2⟩
      by_cases ha : a1 = old
      · simp only [List.map_cons, if_pos (beqT ha)]
        rw [axWFsubs_cons]
        simp only [h1, ih h2, Bool.and_self]
      · simp only [List.map_cons, if_neg (ne_true_of_eq_false (beqF ha))]
        rw [axWFsubs_cons]
        simp only [h1, ih h2, Bool.and_self]

theorem axWF_renameTotal_ne (c : Sec) (old new : Key)
    (h1 : ¬ old = Key.access_exs) (h2 : ¬ new = Key.access_exs)
    (hwf : axWF c = true) : axWF (renameTotal c old new) = true := by
  cases c with
  | mk sc subs =>
      rw [axWF_mk] at hwf
      rcases andT hwf with ⟨h12, h3⟩
      rcases andT h12 with ⟨ha, hb⟩
      rw [renameTotal]
      by_cases hs : hasScalar (Sec.mk sc subs) old = true
      · rw [if_pos hs]
        simp only [Sec.scalars, Sec.sections]
        rw [axWF_mk,
          find?_map_rename_ne _ _ _ _ (fun hh => h1 hh.symm)
            (fun hh => h2 hh.symm)]
        simp only [ha, hb, h3, Bool.and_self]
      · rw [if_neg hs]
        simp only [Sec.scalars, Sec.sections]
        rw [axWF_mk, any_fst_map_rename_ne _ _ _ _ h1 h2]
        simp only [ha, hb, axWFsubs_map_rename subs old new h3, Bool.and_self]

theorem axWF_renameChildren (f : ℕ) :
    ∀ c i, axWF c = true → axWF (renameChildren c i f) = true := by
  induction f with
  | zero =>
      intro c i h
      rw [renameChildren]
      exact h
  | succ f ih =>
      intro c i h
      rw [renameChildren]
      by_cases hm : mem' c (Key.children_task i) = true
      · rw [if_pos hm]
        exact ih _ _ (axWF_renameTotal_ne c _ _
          (fun hh => Key.noConfusion hh) (fun hh => Key.noConfusion hh) h)
      · rw [if_neg hm]
        exact h

theorem any_filter_false {α : Type} (l : List α) (pr q : α → Bool)
    (h : l.any q = false) : (l.filter pr).any q = false := by
  induction l with
  | nil => rfl
  | cons a l ih =>
      simp only [List.any_cons, Bool.or_eq_false_iff] at h
      rw [List.filter_cons]
      by_cases hp : pr a = true
      · rw [if_pos hp]
        simp only [List.any_cons, h.1, ih h.2, Bool.or_self]
      · rw [if_neg hp]
        exact ih h.2

theorem axWFsubs_filter (l : List (Key × Sec)) (pr : Key × Sec → Bool)
    (h : axWFsubs l = true) : axWFsubs (l.filter pr) = true := by
  induction l with
  | nil => rfl
  | cons a l ih =>
      obtain ⟨a1, a2⟩ := a
      rw [axWFsubs_cons] at h
      rcases andT h with ⟨h1, h2⟩
      rw [List.filter_cons]
      by_cases hp : pr (a1, a2) = true
      · rw [if_pos hp, axWFsubs_cons]
        simp only [h1, ih h2, Bool.and_self]
      · rw [if_neg hp]
        exact ih h2

theorem axWF_delIfPresent (c : Sec) (k : Key) (hk : ¬ k = Key.access_exs)
    (h : axWF c = true) : axWF (delIfPresent c k) = true := by
  cases c with
  | mk sc subs =>
      rw [delIfPresent]
      by_cases hm : mem' (Sec.mk sc subs) k = true
      · rw [if_pos hm]
        rw [axWF_mk] at h
        rcases andT h with ⟨h12, h3⟩
        rcases andT h12 with ⟨ha, hb⟩
        simp only [Sec.scalars, Sec.sections]
        rw [axWF_mk, find?_filter_key_ne _ _ _ (fun hh => hk hh.symm)]
        have hany : (subs.filter (fun p => !(p.1 == k))).any
            (fun p => p.1 == Key.access_exs) = false :=
          any_filter_false _ _ _ (by simpa using hb)
        simp only [ha, hany, axWFsubs_filter subs _ h3, Bool.not_false,
          Bool.and_self]
      · rw [if_neg hm]
        exact h

theorem splitOK_congr (c2 c : Sec)
    (h : lookupScalar c2 Key.access_exs = lookupScalar c Key.access_exs) :
    splitOK c2 = splitOK c := by
  unfold splitOK
  rw [h]

theorem find?_isSome_of_map_fst {α β : Type} (k : Key) :
    ∀ (l1 : List (Key × α)) (l2 : List (Key × β)),
      l1.map Prod.fst = l2.map Prod.fst →
      (l1.find? (fun p => p.1 == k)).isSome
        = (l2.find? (fun p => p.1 == k)).isSome := by
  intro l1
  induction l1 with
  | nil =>
      intro l2 h
      cases l2 with
      | nil => rfl
      | cons b l2 => simp at h
  | cons a l1 ih =>
      intro l2 h
      cases l2 with
      | nil => simp at h
      | cons b l2 =>
          simp only [List.map_cons, List.cons.injEq] at h
          by_cases ha : a.1 = k
          · have hbk : b.1 = k := h.1 ▸ ha
            simp only [List.find?_cons, beqT ha, beqT hbk]
            rfl
          · have hb2 : ¬ b.1 = k := fun hh => ha (h.1.symm ▸ hh)
            simp only [List.find?_cons, beqF ha, beqF hb2]
            exact ih l2 h.2

theorem hasSection_of_map_fst (c2 c : Sec) (k : Key)
    (h : c2.sections.map Prod.fst = c.sections.map Prod.fst) :
    hasSection c2 k = hasSection c k := by
  unfold hasSection lookupSection
  cases hf : c2.sections.find? (fun p => p.1 == k) with
  | none =>
      cases hg : c.sections.find? (fun p => p.1 == k) with
      | none => rfl
      | some x =>
          have hh := find?_isSome_of_map_fst k c2.sections c.sections h
          rw [hf, hg] at hh
          simp at hh
  | some x =>
      cases hg : c.sections.find? (fun p => p.1 == k) with
      | none =>
          have hh := find?_isSome_of_map_fst k c2.sections c.sections h
          rw [hf, hg] at hh
          simp at hh
      | some y => rfl

theorem accessBlock_fixFor_error (c : Sec) (xs : List String) (e : PyErr)
    (hax : lookupScalar c Key.access_exs = some (CfgVal.axList xs))
    (hbr : containsBrace (CfgVal.axList xs) = false)
    (hff : fixFor c xs = Except.error e) :
    accessBlock c = (c, some e) := by
  have hs : hasScalar c Key.access_exs = true := by
    unfold hasScalar
    rw [hax]
    rfl
  rw [accessBlock, if_pos hs]
  simp only [hax, Option.getD_some]
  dsimp only [isEmptyListRepr]
  rw [if_neg Bool.false_ne_true]
  rw [if_neg (by rw [hbr]; exact Bool.false_ne_true)]
  dsimp only [literalEval, objIter]
  rw [hff]

/-! ### The update_task pipeline, stage by stage -/

/-- Stages of update_task up to the dep_type assignment (lines 146-151). -/
def stage3 (cfg : Sec) (tid : String) : Sec :=
  setScalar (delScalar (setScalar cfg Key.task_id (CfgVal.str tid))
      Key.task_class)
    Key.dep_type (CfgVal.str "ecpy.task")

/-- After the task_name to name rename (line 155). -/
def stage4 (cfg : Sec) (tid : String) : Sec :=
  renameTotal (stage3 cfg tid) Key.task_name Key.name

/-- After the children_task rename loop (lines 157-160). -/
def stage5 (cfg : Sec) (tid : String) : Sec :=
  renameChildren (stage4 cfg tid) 0
    ((stage4 cfg tid).scalars.length + (stage4 cfg tid).sections.length + 1)

/-- After the selected_driver and selected_profile deletions (lines 162-164). -/
def stage7 (cfg : Sec) (tid : String) : Sec :=
  delIfPresent (delIfPresent (stage5 cfg tid) Key.selected_driver)
    Key.selected_profile

theorem stage3_sections (cfg : Sec) (tid : String) :
    (stage3 cfg tid).sections = cfg.sections := by
  unfold stage3
  rw [sections_setScalar, sections_delScalar, sections_setScalar]

theorem stage3_lookupScalar_ne (cfg : Sec) (tid : String) (k : Key)
    (h1 : ¬ k = Key.task_id) (h2 : ¬ k = Key.task_class)
    (h3 : ¬ k = Key.dep_type) :
    lookupScalar (stage3 cfg tid) k = lookupScalar cfg k := by
  unfold stage3
  rw [lookupScalar_setScalar_ne _ _ _ _ h3, lookupScalar_delScalar_ne _ _ _ h2,
      lookupScalar_setScalar_ne _ _ _ _ h1]

theorem stage4_lookup_ne (cfg : Sec) (tid : String) (k : Key)
    (h1 : ¬ k = Key.task_id) (h2 : ¬ k = Key.task_class)
    (h3 : ¬ k = Key.dep_type) (h4 : ¬ k = Key.task_name)
    (h5 : ¬ k = Key.name) :
    lookupScalar (stage4 cfg tid) k = lookupScalar cfg k ∧
    lookupSection (stage4 cfg tid) k = lookupSection cfg k := by
  unfold stage4
  constructor
  · rw [lookupScalar_renameTotal_ne _ _ _ _ h4 h5]
    exact stage3_lookupScalar_ne cfg tid k h1 h2 h3
  · rw [lookupSection_renameTotal_ne _ _ _ _ h4 h5]
    exact lookupSection_congr _ _ _ (stage3_sections cfg tid)

theorem stage5_lookup_ne (cfg : Sec) (tid : String) (k : Key)
    (hch : ∀ j : ℕ, ¬ k = Key.children_task j ∧ ¬ k = Key.children j) :
    lookupScalar (stage5 cfg tid) k = lookupScalar (stage4 cfg tid) k ∧
    lookupSection (stage5 cfg tid) k = lookupSection (stage4 cfg tid) k := by
  unfold stage5
  exact renameChildren_preserve k hch _ _ 0

theorem stage7_lookup_of_5 (cfg : Sec) (tid : String) (k : Key)
    (hsd : ¬ k = Key.selected_driver) (hsp2 : ¬ k = Key.selected_profile) :
    lookupScalar (stage7 cfg tid) k = lookupScalar (stage5 cfg tid) k ∧
    lookupSection (stage7 cfg tid) k = lookupSection (stage5 cfg tid) k := by
  unfold stage7
  constructor
  · rw [lookupScalar_delIfPresent_ne _ _ _ hsp2,
        lookupScalar_delIfPresent_ne _ _ _ hsd]
  · rw [lookupSection_delIfPresent_ne _ _ _ hsp2,
        lookupSection_delIfPresent_ne _ _ _ hsd]

theorem stage7_lookup_ne (cfg : Sec) (tid : String) (k : Key)
    (hch : ∀ j : ℕ, ¬ k = Key.children_task j ∧ ¬ k = Key.children j)
    (hsd : ¬ k = Key.selected_driver) (hsp2 : ¬ k = Key.selected_profile) :
    lookupScalar (stage7 cfg tid) k = lookupScalar (stage4 cfg tid) k ∧
    lookupSection (stage7 cfg tid) k = lookupSection (stage4 cfg tid) k := by
  obtain ⟨a1, a2⟩ := stage7_lookup_of_5 cfg tid k hsd hsp2
  obtain ⟨b1, b2⟩ := stage5_lookup_ne cfg tid k hch
  exact ⟨a1.trans b1, a2.trans b2⟩

theorem update_task_eq (cfg : Sec) (v : CfgVal ⊕ Sec) (tid : String)
    (hl : lookupAny cfg Key.task_class = some v)
    (htid : taskIdOf (some v) = some tid)
    (hmem : mem' (stage3 cfg tid) Key.task_name = true) :
    update_task cfg = accessBlock (stage7 cfg tid) := by
  unfold update_task
  rw [hl]
  dsimp only
  rw [htid]
  dsimp only
  unfold rename
  rw [if_pos (show mem' (setScalar (delScalar (setScalar cfg Key.task_id
      (CfgVal.str tid)) Key.task_class) Key.dep_type (CfgVal.str "ecpy.task"))
      Key.task_name = true from hmem)]
  rfl

end Convert

/-! # Theorems -/

/-- C8: in both Alazar935x acquisition entry points the number of samples per
record sent to the board is the least multiple of 32 that is ≥ the integer
product `n`; it equals `n` exactly when `n` is already a multiple of 32 and is
strictly larger otherwise. -/
theorem alazar_samples_per_record_rounding (n : ℕ) :
    Alazar935x.postTriggerSamples n = Alazar935x.samplesPerRecordDemod n ∧
    32 ∣ Alazar935x.postTriggerSamples n ∧
    n ≤ Alazar935x.postTriggerSamples n ∧
    (∀ m, 32 ∣ m → n ≤ m → Alazar935x.postTriggerSamples n ≤ m) ∧
    (32 ∣ n → Alazar935x.postTriggerSamples n = n) ∧
    (¬ 32 ∣ n → n < Alazar935x.postTriggerSamples n) := by
  have key : Alazar935x.postTriggerSamples n = 32 * ((n + 31) / 32) := by
    unfold Alazar935x.postTriggerSamples
    split <;> omega
  have key' : Alazar935x.samplesPerRecordDemod n = 32 * ((n + 31) / 32) := by
    unfold Alazar935x.samplesPerRecordDemod
    split <;> omega
  refine ⟨key.trans key'.symm, ?_, ?_, ?_, ?_, ?_⟩
  · rw [key]; exact dvd_mul_right 32 _
  · rw [key]; omega
  · intro m hd hm
    rcases hd with ⟨k, rfl⟩
    rw [key]; omega
  · intro hd
    rcases hd with ⟨k, rfl⟩
    rw [key]; omega
  · intro hd
    rw [key]; omega

/-- C10: reading Keithley6221.waveform_amplitude executes the
waveform_frequency getter, because the setter def at line 580 is decorated
with waveform_frequency.setter and so rebinds the name waveform_amplitude to
a copy of the waveform_frequency property; the read therefore returns the
reply to SOUR:WAVE:FREQ?, not the reply to SOUR:WAVE:AMPL?. -/
theorem keithley6221_waveform_amplitude_reads_frequency (instr : String → ℚ) :
    ∃ p, Keithley6221.classAttr "waveform_amplitude" = some p ∧
      p.fget = Keithley6221.GetterFn.waveformFrequencyGetter ∧
      p.fget ≠ Keithley6221.GetterFn.waveformAmplitudeGetter ∧
      p.fset = some Keithley6221.SetterFn.waveformAmplitudeSetter ∧
      Keithley6221.readProperty p instr = instr "SOUR:WAVE:FREQ?" :=
  ⟨Keithley6221.waveform_amplitude_v2, by decide, rfl, by decide, rfl, rfl⟩

/-- C4 (code bug): on every call, the CS4.out_field setter writes the ULIM
command and the SWEEP UP FAST / SWEEP UP SLOW command as the claim says, but
then raises NameError on sleep(wait) because the name wait is unbound; it
never polls the field and never raises InstrIOError. -/
theorem cs4_out_field_setter_name_error (target : ℚ) (heaterOff : Bool) :
    (CS4.out_field_set target heaterOff).1
      = [CS4.WriteCmd.ulim target,
         if heaterOff then CS4.WriteCmd.sweepUpFast else CS4.WriteCmd.sweepUpSlow] ∧
    (CS4.out_field_set target heaterOff).2
      = Except.error (CS4.PyExn.nameError "wait") ∧
    (CS4.out_field_set target heaterOff).2 ≠ Except.error CS4.PyExn.instrIOError := by
  have hlook : CS4.lookupName "wait" = Except.error (CS4.PyExn.nameError "wait") := rfl
  refine ⟨rfl, ?_, ?_⟩
  · simp [CS4.out_field_set, hlook]
  · simp [CS4.out_field_set, hlook]

/-- C3: with recordsPerCapture a positive multiple of recordsPerBuffer, the
get_traces acquisition loop runs exactly recordsPerCapture/recordsPerBuffer
iterations, iteration k uses DMA buffer k mod 4 (4 buffers are allocated) and
re-posts it to the board, and every row 0..recordsPerCapture-1 of dataA and
dataB is written by exactly one iteration; when recordsPerCapture is not a
multiple of recordsPerBuffer, the exception is raised at entry and no
acquisition iteration happens. -/
theorem alazar_get_traces_ring_buffer (rpc rpb : ℕ) (hpos : 0 < rpb) :
    (rpb ∣ rpc →
      ∃ iters, Alazar935x.get_traces rpc rpb = Except.ok iters ∧
        iters.length = rpc / rpb ∧
        Alazar935x.bufferCount = 4 ∧
        (∀ k, k < rpc / rpb →
          iters[k]? = some { bufferIndex := k % 4, rowLo := k * rpb,
                             rowHi := (k + 1) * rpb, reposted := true }) ∧
        (∀ row, row < rpc →
          iters.countP (fun it => decide (it.rowLo ≤ row ∧ row < it.rowHi)) = 1)) ∧
    (¬ rpb ∣ rpc →
      Alazar935x.get_traces rpc rpb
        = Except.error Alazar935x.recordsMismatchError) := by
  constructor
  · intro hdvd
    have hmod : rpc % rpb = 0 := Nat.mod_eq_zero_of_dvd hdvd
    have hE : Alazar935x.acquisitionLoop rpb (rpc / rpb) 0
        = (List.range (rpc / rpb)).map (fun j => Alazar935x.mkIter rpb j) := by
      simpa using Alazar935x.acquisitionLoop_eq rpb (rpc / rpb) 0
    refine ⟨Alazar935x.acquisitionLoop rpb (rpc / rpb) 0, ?_, ?_, rfl, ?_, ?_⟩
    · simp [Alazar935x.get_traces, hmod]
    · simp [hE]
    · intro k hk
      rw [hE, List.getElem?_map, List.getElem?_range hk]
      simp [Alazar935x.mkIter, Alazar935x.bufferCount]
    · intro row hrow
      rw [hE, List.countP_map]
      have hcmem : row / rpb ∈ List.range (rpc / rpb) := by
        rw [List.mem_range, Nat.div_lt_iff_lt_mul hpos,
          Nat.div_mul_cancel hdvd]
        exact hrow
      refine countP_eq_one_of_unique (List.nodup_range _) hcmem _ (fun k => ?_)
      simp only [Function.comp_apply, Alazar935x.mkIter, decide_eq_true_eq]
      constructor
      · rintro ⟨hlo, hhi⟩
        have h1 : k ≤ row / rpb := (Nat.le_div_iff_mul_le hpos).mpr hlo
        have h2 : row / rpb < k + 1 := (Nat.div_lt_iff_lt_mul hpos).mpr hhi
        omega
      · rintro rfl
        refine ⟨Nat.div_mul_le_self row rpb, ?_⟩
        exact (Nat.div_lt_iff_lt_mul hpos).mp (Nat.lt_succ_self _)
  · intro hndvd
    have hmod : rpc % rpb ≠ 0 := fun h => hndvd (Nat.dvd_of_mod_eq_zero h)
    simp [Alazar935x.get_traces, hmod]

/-- Witness for C3 at recordsPerCapture = 8, recordsPerBuffer = 2. -/
theorem alazar_get_traces_ring_buffer_witness :
    0 < 2 ∧
    ((2 ∣ 8 →
      ∃ iters, Alazar935x.get_traces 8 2 = Except.ok iters ∧
        iters.length = 8 / 2 ∧
        Alazar935x.bufferCount = 4 ∧
        (∀ k, k < 8 / 2 →
          iters[k]? = some { bufferIndex := k % 4, rowLo := k * 2,
                             rowHi := (k + 1) * 2, reposted := true }) ∧
        (∀ row, row < 8 →
          iters.countP (fun it => decide (it.rowLo ≤ row ∧ row < it.rowHi)) = 1)) ∧
    (¬ 2 ∣ 8 →
      Alazar935x.get_traces 8 2
        = Except.error Alazar935x.recordsMismatchError)) :=
  ⟨by decide, alazar_get_traces_ring_buffer 8 2 (by decide)⟩

/-- C6: the secure() context manager retries the lock acquisition in 0.1 s
steps and raises InstrIOError, without entering the guarded block or touching
the release, exactly when every attempt within the timeout budget fails (the
accumulated wait of the failed attempts then strictly exceeds the timeout);
and whenever an acquire attempt succeeds within the budget, the guarded block
runs after one 0.1 s retry per failed attempt and the lock is released on
exit, also when the guarded block raises. -/
theorem usmc_secure_lock (acq : ℕ → Bool) (timeout : ℚ) (bodyRaises : Bool)
    (ht : 0 ≤ timeout) :
    ((∀ k, k ≤ (⌊timeout * 10⌋).toNat → acq k = false) →
      USMC.secure acq timeout bodyRaises
        = List.replicate ((⌊timeout * 10⌋).toNat + 1) USMC.SEvent.sleepRetry
            ++ [USMC.SEvent.raiseTimeout] ∧
      timeout < ((⌊timeout * 10⌋).toNat + 1 : ℚ) / 10) ∧
    (∀ s, s ≤ (⌊timeout * 10⌋).toNat → (∀ j, j < s → acq j = false) →
      acq s = true →
      USMC.secure acq timeout bodyRaises
        = List.replicate s USMC.SEvent.sleepRetry ++ [USMC.SEvent.enterBody]
            ++ (if bodyRaises then [USMC.SEvent.bodyException] else [])
            ++ [USMC.SEvent.releaseLock]) := by
  constructor
  · intro hfail
    constructor
    · have h := USMC.acquireLoop_all_fail acq timeout ht 0 (Nat.zero_le _)
        (fun j _ h2 => hfail j h2)
      unfold USMC.secure
      rw [h]
      simp
    · rw [lt_div_iff (by norm_num : (0:ℚ) < 10)]
      have h1 : ⌊timeout * 10⌋ < ((⌊timeout * 10⌋).toNat : ℤ) + 1 := by omega
      have h2 := Int.floor_lt.mp h1
      push_cast at h2 ⊢
      linarith
  · intro s hs hfail hsucc
    have h := USMC.acquireLoop_first_succ acq timeout s hs 0 (Nat.zero_le _)
      (fun j _ h2 => hfail j h2) hsucc
    unfold USMC.secure
    rw [h]
    simp

/-- Witness for C6: timeout 0.5 s, every acquire attempt failing, a raising
guarded block; the run does 6 retries of 0.1 s (total 0.6 s > 0.5 s) and
raises InstrIOError. -/
theorem usmc_secure_lock_witness :
    (0 : ℚ) ≤ 1 / 2 ∧
    USMC.secure (fun _ => false) (1 / 2) true
      = List.replicate 6 USMC.SEvent.sleepRetry ++ [USMC.SEvent.raiseTimeout] := by
  refine ⟨by norm_num, ?_⟩
  have hM : (⌊(1 / 2 : ℚ) * 10⌋).toNat = 5 := by
    norm_num
    rfl
  have h := (usmc_secure_lock (fun _ => false) (1 / 2) true (by norm_num)).1
    (fun k _ => rfl)
  rw [hM] at h
  exact h.1

/-- Helper: a completed finishStop keeps its prefix, writes the database
entry, and introduces no goToField call. -/
theorem finishStop_ok_mem (p : List ApplyMagField.Event × Bool)
    (o3 : ApplyMagField.SupOutcome) (target : ℚ) (evs : List ApplyMagField.Event)
    (h : ApplyMagField.finishStop p o3 target = Except.ok evs) :
    ApplyMagField.Event.writeDB target ∈ evs ∧
    (∀ e, e ∈ p.1 → e ∈ evs) ∧
    (∀ t r, ApplyMagField.Event.goToField t r ∈ evs →
      ApplyMagField.Event.goToField t r ∈ p.1) := by
  rw [ApplyMagField.finishStop] at h
  split at h
  · cases o3 <;> simp [ApplyMagField.supervise] at h <;>
      (subst h; refine ⟨by simp, fun e he => by simp [he], fun t r ht => ?_⟩) <;>
      simpa using ht
  · simp at h
    subst h
    refine ⟨by simp, fun e he => by simp [he], fun t r ht => ?_⟩
    simpa using ht

/-- C7: every completed run of ApplyMagFieldTask.perform writes the evaluated
target to the field database entry, and calls go_to_field exactly when
evaluate_state reports a needed sweep, i.e. when the persistent field is at
least OUT_FLUC = 2e-4 T away from the target. -/
theorem apply_mag_field_go_to_field_guard (needsMakeReady : Bool)
    (pf target rate : ℚ) (heaterState : String) (autoStop0 : Bool)
    (o1 o2 o3 : ApplyMagField.SupOutcome) (evs : List ApplyMagField.Event)
    (hok : ApplyMagField.perform needsMakeReady pf target rate heaterState
      autoStop0 o1 o2 o3 = Except.ok evs) :
    ApplyMagField.Event.writeDB target ∈ evs ∧
    ((ApplyMagField.evaluate_state pf target heaterState).1 = true ↔
      ApplyMagField.OUT_FLUC ≤ |pf - target|) ∧
    ((ApplyMagField.evaluate_state pf target heaterState).1 = true →
      ApplyMagField.Event.goToField target rate ∈ evs) ∧
    ((ApplyMagField.evaluate_state pf target heaterState).1 = false →
      ∀ t r, ApplyMagField.Event.goToField t r ∉ evs) := by
  have hiff : (ApplyMagField.evaluate_state pf target heaterState).1 = true
      ↔ ApplyMagField.OUT_FLUC ≤ |pf - target| := by
    simp [ApplyMagField.evaluate_state]
  simp only [ApplyMagField.perform] at hok
  cases hsw : (ApplyMagField.evaluate_state pf target heaterState).1 with
  | false =>
      rw [hsw] at hok
      simp only [Bool.false_eq_true, if_false] at hok
      obtain ⟨hdb, hpre, hno⟩ := finishStop_ok_mem _ o3 target evs hok
      have hnp : ¬ ApplyMagField.OUT_FLUC ≤ |pf - target| := fun hp => by
        rw [hiff.mpr hp] at hsw
        exact absurd hsw (by decide)
      refine ⟨hdb, iff_of_false (by decide) hnp, ?_, ?_⟩
      · intro h
        exact absurd h (by decide)
      · intro _ t r hmem
        have hmem2 := hno t r hmem
        cases needsMakeReady <;> simp_all
  | true =>
      rw [hsw] at hok
      simp only [if_true] at hok
      have hgo : ∃ evs1 autoStop2 e2,
          (ApplyMagField.Event.goToField target rate ∈ e2) ∧
          ApplyMagField.finishStop (evs1 ++ e2, autoStop2) o3 target
            = Except.ok evs := by
        cases hho : (ApplyMagField.evaluate_state pf target heaterState).2 <;>
          rw [hho] at hok <;>
          cases o1 <;> cases o2 <;>
          simp only [ApplyMagField.supervise, Option.map, Bool.false_eq_true,
            if_false, if_true, ite_true, ite_false] at hok <;>
          first
            | (refine ⟨_, _, _, by simp, hok⟩)
            | (cases hok)
      obtain ⟨evs1, autoStop2, e2, hin, hfin⟩ := hgo
      obtain ⟨hdb, hpre, _⟩ := finishStop_ok_mem _ o3 target evs hfin
      refine ⟨hdb, iff_of_true rfl (hiff.mp hsw), ?_, ?_⟩
      · intro _
        exact hpre _ (by simp [hin])
      · intro h
        exact absurd h (by decide)

/-- Witness for C7: a full run from persistent field 0 T to target 1 T with
the heater initially off and all supervisions succeeding. -/
theorem apply_mag_field_go_to_field_guard_witness :
    ApplyMagField.perform true 0 1 (1 / 100) "Off" true .success .success .success
      = Except.ok [ApplyMagField.Event.makeReady, ApplyMagField.Event.prepareHeaterOn,
          ApplyMagField.Event.heaterOn, ApplyMagField.Event.goToField 1 (1 / 100),
          ApplyMagField.Event.stopHeater, ApplyMagField.Event.writeDB 1] ∧
    (ApplyMagField.Event.writeDB 1
        ∈ [ApplyMagField.Event.makeReady, ApplyMagField.Event.prepareHeaterOn,
           ApplyMagField.Event.heaterOn, ApplyMagField.Event.goToField 1 (1 / 100),
           ApplyMagField.Event.stopHeater, ApplyMagField.Event.writeDB 1] ∧
      ((ApplyMagField.evaluate_state 0 1 "Off").1 = true ↔
        ApplyMagField.OUT_FLUC ≤ |(0 : ℚ) - 1|) ∧
      ((ApplyMagField.evaluate_state 0 1 "Off").1 = true →
        ApplyMagField.Event.goToField 1 (1 / 100)
          ∈ [ApplyMagField.Event.makeReady, ApplyMagField.Event.prepareHeaterOn,
             ApplyMagField.Event.heaterOn, ApplyMagField.Event.goToField 1 (1 / 100),
             ApplyMagField.Event.stopHeater, ApplyMagField.Event.writeDB 1]) ∧
      ((ApplyMagField.evaluate_state 0 1 "Off").1 = false →
        ∀ t r, ApplyMagField.Event.goToField t r
          ∉ [ApplyMagField.Event.makeReady, ApplyMagField.Event.prepareHeaterOn,
             ApplyMagField.Event.heaterOn, ApplyMagField.Event.goToField 1 (1 / 100),
             ApplyMagField.Event.stopHeater, ApplyMagField.Event.writeDB 1])) := by
  have hok : ApplyMagField.perform true 0 1 (1 / 100) "Off" true
      .success .success .success
      = Except.ok [ApplyMagField.Event.makeReady, ApplyMagField.Event.prepareHeaterOn,
          ApplyMagField.Event.heaterOn, ApplyMagField.Event.goToField 1 (1 / 100),
          ApplyMagField.Event.stopHeater, ApplyMagField.Event.writeDB 1] := by
    norm_num [ApplyMagField.perform, ApplyMagField.evaluate_state,
      ApplyMagField.supervise, ApplyMagField.finishStop, ApplyMagField.OUT_FLUC]
  exact ⟨hok,
    apply_mag_field_go_to_field_guard true 0 1 (1 / 100) "Off" true
      .success .success .success _ hok⟩

/-- C2: for every demodulation channel with average=True, the returned I and
Q values of bin j equal the formula of the claim: 2 times the bin mean of
the volt-converted, record-averaged data multiplied with the reference
waveforms cos resp. sin of 2 pi n freq / samplesPerSec, rotated by the angle
2 pi freq startSample / samplesPerSec. -/
theorem alazar_demod_iq (raw : ℕ → ℕ → ℝ) (code channelRange : ℝ)
    (R m : ℕ) (freq samplesPerSec startSample : ℝ) (j : ℕ) :
    AlazarDemod.demodChannel raw code channelRange R m freq samplesPerSec
        startSample j
      = AlazarDemod.claimIQ
          (AlazarDemod.recordMean R
            (fun r n => AlazarDemod.voltConvert code channelRange (raw r n)))
          m freq samplesPerSec startSample j := by
  unfold AlazarDemod.demodChannel AlazarDemod.claimIQ AlazarDemod.twiceBinMean
    AlazarDemod.cosTable AlazarDemod.sinTable AlazarDemod.angle
  simp only

/-- C5: the two `field_sweep_rate` unit conversions are mutually inverse: for
every rate and every positive `field_current_ratio`, if the instrument echoes
exactly the value the setter sent, the getter returns the original rate. -/
theorem cs4_sweep_rate_roundtrip (r ratio : ℚ) (h : 0 < ratio) :
    CS4.field_sweep_rate_read (CS4.field_sweep_rate_sent r ratio) ratio = r := by
  have hr : (60 : ℚ) * ratio ≠ 0 := by positivity
  unfold CS4.field_sweep_rate_read CS4.field_sweep_rate_sent
  field_simp

/-- C1: after writing the new value both SCPI setters read the value back and
raise InstrIOError exactly when the read-back does not match the requested
value (SynthHD.frequency: the requested value converted to MHz is written
rounded to 4 decimal places, and InstrIOError is raised iff the read-back
differs from the unrounded converted value by more than 1e-12, assuming the
trailing calibration check passes; Keithley2000.function: InstrIOError is
raised iff the quoted read-back, stripped of its first and last character and
compared case-insensitively, differs from the requested string). -/
theorem scpi_setter_readback_check (value result : ℚ) (unit : SynthHD.FreqUnit)
    (vFlag : ℤ) (outputOn : Bool) (pFlag : ℤ) (req reply : String)
    (hcal : SynthHD.check_calibration_raises vFlag outputOn pFlag = false) :
    ((SynthHD.frequency_set value unit result vFlag outputOn pFlag).raises = true ↔
      1 / 10 ^ 12 < |result - value * SynthHD.conversionToMHz unit|) ∧
    (SynthHD.frequency_set value unit result vFlag outputOn pFlag).writtenMHz
      = SynthHD.format4 (value * SynthHD.conversionToMHz unit) ∧
    ((Keithley2000.function_set req reply).raises = true ↔
      ¬ ((reply.drop 1).dropRight 1).toLower = req.toLower) ∧
    (Keithley2000.function_set req reply).written = "FUNCtion \"" ++ req ++ "\"" := by
  refine ⟨?_, rfl, ?_, rfl⟩
  · simp only [SynthHD.frequency_set]
    split
    · next h => simpa using h
    · next h =>
        rw [hcal]
        simp only [Bool.false_eq_true, false_iff, not_lt]
        exact le_of_not_lt (by simpa using h)
  · simp only [Keithley2000.function_set]
    simp [Bool.not_eq_true', beq_iff_eq]

/-- Witness for C1: frequency 1 GHz echoed as 1000 MHz with a passing
calibration check, and function VOLT:DC echoed as a quoted lower-case string. -/
theorem scpi_setter_readback_check_witness :
    SynthHD.check_calibration_raises 1 false 1 = false ∧
    (((SynthHD.frequency_set 1 .GHz 1000 1 false 1).raises = true ↔
      1 / 10 ^ 12 < |(1000 : ℚ) - 1 * SynthHD.conversionToMHz .GHz|) ∧
    (SynthHD.frequency_set 1 .GHz 1000 1 false 1).writtenMHz
      = SynthHD.format4 (1 * SynthHD.conversionToMHz .GHz) ∧
    ((Keithley2000.function_set "VOLT:DC" "\"volt:dc\"").raises = true ↔
      ¬ (("\"volt:dc\"".drop 1).dropRight 1).toLower = "VOLT:DC".toLower) ∧
    (Keithley2000.function_set "VOLT:DC" "\"volt:dc\"").written
      = "FUNCtion \"" ++ "VOLT:DC" ++ "\"") :=
  ⟨by decide,
   scpi_setter_readback_check 1 1000 .GHz 1 false 1 "VOLT:DC" "\"volt:dc\"" (by decide)⟩

/-- Witness for C5 at the concrete rate 3 T/min and ratio 2 T/A. -/
theorem cs4_sweep_rate_roundtrip_witness :
    (0 : ℚ) < 2 ∧ CS4.field_sweep_rate_read (CS4.field_sweep_rate_sent 3 2) 2 = 3 :=
  ⟨by norm_num, cs4_sweep_rate_roundtrip 3 2 (by norm_num)⟩



open Convert in
/-- C9: corrected.  With a well-formed flat configobj section (unique keys,
a task_name scalar, no name or children_i key yet, shaped access_exs data
whose names split on underscore into exactly two parts), update_task raises
ValueError and leaves the section unmodified when task_class is not a TASKS
key; when task_class maps to the id tid, no ValueError is raised and at exit
task_class is gone, task_id holds tid, dep_type holds ecpy.task, name holds
the old task_name value, task_name is gone, and every consecutively present
children_task_i has been renamed to children_i.  (The split condition is
necessary: see the counterexample.) -/
theorem convert_update_task_renames (cfg : Sec)
    (hnd : keysNodup cfg)
    (htn : hasScalar cfg Key.task_name = true)
    (hnm : mem' cfg Key.name = false)
    (hnc : noChildrenKeys cfg = true)
    (hwf : axWF cfg = true)
    (hsp : splitOK cfg = true) :
    (∀ v, lookupAny cfg Key.task_class = some v →
      taskIdOf (some v) = none →
      update_task cfg = (cfg, some PyErr.valueError)) ∧
    (∀ tid, taskIdOf (lookupAny cfg Key.task_class) = some tid →
      (update_task cfg).2 ≠ some PyErr.valueError ∧
      mem' (update_task cfg).1 Key.task_class = false ∧
      lookupScalar (update_task cfg).1 Key.task_id = some (CfgVal.str tid) ∧
      lookupScalar (update_task cfg).1 Key.dep_type
        = some (CfgVal.str "ecpy.task") ∧
      lookupScalar (update_task cfg).1 Key.name
        = lookupScalar cfg Key.task_name ∧
      mem' (update_task cfg).1 Key.task_name = false ∧
      ∀ i0, (∀ j, j ≤ i0 → mem' cfg (Key.children_task j) = true) →
        mem' (update_task cfg).1 (Key.children i0) = true ∧
        mem' (update_task cfg).1 (Key.children_task i0) = false) := by
  constructor
  · intro v hl htid0
    unfold update_task
    rw [hl]
    dsimp only
    rw [htid0]
  · intro tid htid
    obtain ⟨v, hl⟩ : ∃ v, lookupAny cfg Key.task_class = some v := by
      cases hx : lookupAny cfg Key.task_class with
      | none =>
          rw [hx] at htid
          exact absurd htid (fun hh => Option.noConfusion hh)
      | some v => exact ⟨v, rfl⟩
    rw [hl] at htid
    have htcs : hasScalar cfg Key.task_class = true := by
      unfold lookupAny at hl
      cases hx : lookupScalar cfg Key.task_class with
      | some w =>
          unfold hasScalar
          rw [hx]
          rfl
      | none =>
          exfalso
          rw [hx] at hl
          dsimp only at hl
          cases hls : lookupSection cfg Key.task_class with
          | none =>
              rw [hls] at hl
              exact Option.noConfusion hl
          | some s2 =>
              rw [hls] at hl
              simp at hl
              rw [← hl] at htid
              exact absurd htid (fun hh => Option.noConfusion hh)
    have h3tn : lookupScalar (stage3 cfg tid) Key.task_name
        = lookupScalar cfg Key.task_name :=
      stage3_lookupScalar_ne cfg tid Key.task_name (fun hh => Key.noConfusion hh) (fun hh => Key.noConfusion hh) (fun hh => Key.noConfusion hh)
    have hmem3 : mem' (stage3 cfg tid) Key.task_name = true := by
      unfold mem' hasScalar
      rw [h3tn]
      unfold hasScalar at htn
      rw [htn]
      rfl
    have hU := update_task_eq cfg v tid hl htid hmem3
    rw [hU]
    have hax4 : lookupScalar (stage4 cfg tid) Key.access_exs
        = lookupScalar cfg Key.access_exs :=
      (stage4_lookup_ne cfg tid Key.access_exs (fun hh => Key.noConfusion hh) (fun hh => Key.noConfusion hh) (fun hh => Key.noConfusion hh) (fun hh => Key.noConfusion hh) (fun hh => Key.noConfusion hh)).1
    have hwf3 : axWF (stage3 cfg tid) = true := by
      rw [axWF_congr (stage3 cfg tid) cfg
        (stage3_lookupScalar_ne cfg tid Key.access_exs (fun hh => Key.noConfusion hh) (fun hh => Key.noConfusion hh) (fun hh => Key.noConfusion hh))
        (stage3_sections cfg tid)]
      exact hwf
    have hwf4 : axWF (stage4 cfg tid) = true := by
      unfold stage4
      exact axWF_renameTotal_ne _ _ _ (fun hh => Key.noConfusion hh) (fun hh => Key.noConfusion hh) hwf3
    have hwf5 : axWF (stage5 cfg tid) = true := by
      unfold stage5
      exact axWF_renameChildren _ _ _ hwf4
    have hwf7 : axWF (stage7 cfg tid) = true := by
      unfold stage7
      exact axWF_delIfPresent _ _ (fun hh => Key.noConfusion hh) (axWF_delIfPresent _ _ (fun hh => Key.noConfusion hh) hwf5)
    have hax7 : lookupScalar (stage7 cfg tid) Key.access_exs
        = lookupScalar cfg Key.access_exs := by
      rw [(stage7_lookup_ne cfg tid Key.access_exs (fun j => ⟨(fun hh => Key.noConfusion hh), (fun hh => Key.noConfusion hh)⟩) (fun hh => Key.noConfusion hh) (fun hh => Key.noConfusion hh)).1]
      exact hax4
    have hsp7 : splitOK (stage7 cfg tid) = true := by
      rw [splitOK_congr (stage7 cfg tid) cfg hax7]
      exact hsp
    obtain ⟨hab1, hab2, hab3⟩ := accessBlock_spec (stage7 cfg tid) hwf7 hsp7
    refine ⟨hab1, ?_, ?_, ?_, ?_, ?_, ?_⟩
    · have hscF : lookupScalar (accessBlock (stage7 cfg tid)).1 Key.task_class
          = none := by
        rw [hab2 Key.task_class (fun hh => Key.noConfusion hh),
          (stage7_lookup_ne cfg tid Key.task_class (fun j => ⟨(fun hh => Key.noConfusion hh), (fun hh => Key.noConfusion hh)⟩) (fun hh => Key.noConfusion hh) (fun hh => Key.noConfusion hh)).1]
        unfold stage4
        rw [lookupScalar_renameTotal_ne _ _ _ _ (fun hh => Key.noConfusion hh) (fun hh => Key.noConfusion hh)]
        unfold stage3
        rw [lookupScalar_setScalar_ne _ _ _ _ (fun hh => Key.noConfusion hh),
          lookupScalar_delScalar_self]
      have hsecF : hasSection (accessBlock (stage7 cfg tid)).1 Key.task_class
          = false := by
        rw [hasSection_of_map_fst _ _ _ hab3,
          hasSection_of_lookup _ _ _
            (stage7_lookup_ne cfg tid Key.task_class (fun j => ⟨(fun hh => Key.noConfusion hh), (fun hh => Key.noConfusion hh)⟩) (fun hh => Key.noConfusion hh) (fun hh => Key.noConfusion hh)).2,
          hasSection_of_lookup _ _ _ (show
            lookupSection (stage4 cfg tid) Key.task_class
              = lookupSection cfg Key.task_class by
            unfold stage4
            rw [lookupSection_renameTotal_ne _ _ _ _ (fun hh => Key.noConfusion hh) (fun hh => Key.noConfusion hh)]
            exact lookupSection_congr _ _ _ (stage3_sections cfg tid))]
        exact nodup_scalar_not_section cfg _ hnd htcs
      unfold mem' hasScalar
      rw [hscF, hsecF]
      rfl
    · rw [hab2 Key.task_id (fun hh => Key.noConfusion hh),
        (stage7_lookup_ne cfg tid Key.task_id (fun j => ⟨(fun hh => Key.noConfusion hh), (fun hh => Key.noConfusion hh)⟩) (fun hh => Key.noConfusion hh) (fun hh => Key.noConfusion hh)).1]
      unfold stage4
      rw [lookupScalar_renameTotal_ne _ _ _ _ (fun hh => Key.noConfusion hh) (fun hh => Key.noConfusion hh)]
      unfold stage3
      rw [lookupScalar_setScalar_ne _ _ _ _ (fun hh => Key.noConfusion hh),
        lookupScalar_delScalar_ne _ _ _ (fun hh => Key.noConfusion hh),
        lookupScalar_setScalar_self]
    · rw [hab2 Key.dep_type (fun hh => Key.noConfusion hh),
        (stage7_lookup_ne cfg tid Key.dep_type (fun j => ⟨(fun hh => Key.noConfusion hh), (fun hh => Key.noConfusion hh)⟩) (fun hh => Key.noConfusion hh) (fun hh => Key.noConfusion hh)).1]
      unfold stage4
      rw [lookupScalar_renameTotal_ne _ _ _ _ (fun hh => Key.noConfusion hh) (fun hh => Key.noConfusion hh)]
      unfold stage3
      rw [lookupScalar_setScalar_self]
    · have h3nameF : hasScalar (stage3 cfg tid) Key.name = false := by
        unfold hasScalar
        rw [stage3_lookupScalar_ne cfg tid Key.name (fun hh => Key.noConfusion hh) (fun hh => Key.noConfusion hh) (fun hh => Key.noConfusion hh)]
        exact (Bool.or_eq_false_iff.mp (show (hasScalar cfg Key.name
          || hasSection cfg Key.name) = false from hnm)).1
      have h3tnS : hasScalar (stage3 cfg tid) Key.task_name = true := by
        unfold hasScalar
        rw [h3tn]
        exact htn
      rw [hab2 Key.name (fun hh => Key.noConfusion hh),
        (stage7_lookup_ne cfg tid Key.name (fun j => ⟨(fun hh => Key.noConfusion hh), (fun hh => Key.noConfusion hh)⟩) (fun hh => Key.noConfusion hh) (fun hh => Key.noConfusion hh)).1]
      unfold stage4
      rw [lookupScalar_renameTotal_new _ _ _ h3tnS h3nameF, h3tn]
    · have h3tnSec : hasSection (stage3 cfg tid) Key.task_name = false := by
        rw [hasSection_of_lookup _ _ _
          (lookupSection_congr _ _ _ (stage3_sections cfg tid))]
        exact nodup_scalar_not_section cfg _ hnd htn
      have htn4 : mem' (stage4 cfg tid) Key.task_name = false := by
        unfold stage4
        exact mem'_renameTotal_old _ _ _ (fun hh => Key.noConfusion hh) (Or.inr h3tnSec)
      have htn4S := Bool.or_eq_false_iff.mp
        (show (hasScalar (stage4 cfg tid) Key.task_name
          || hasSection (stage4 cfg tid) Key.task_name) = false from htn4)
      unfold mem' hasScalar
      rw [hab2 Key.task_name (fun hh => Key.noConfusion hh),
        (stage7_lookup_ne cfg tid Key.task_name (fun j => ⟨(fun hh => Key.noConfusion hh), (fun hh => Key.noConfusion hh)⟩) (fun hh => Key.noConfusion hh) (fun hh => Key.noConfusion hh)).1,
        show (lookupScalar (stage4 cfg tid) Key.task_name).isSome = false
          from htn4S.1]
      have h2 : hasSection (accessBlock (stage7 cfg tid)).1 Key.task_name
          = false := by
        rw [hasSection_of_map_fst _ _ _ hab3,
          hasSection_of_lookup _ _ _
            (stage7_lookup_ne cfg tid Key.task_name (fun j => ⟨(fun hh => Key.noConfusion hh), (fun hh => Key.noConfusion hh)⟩) (fun hh => Key.noConfusion hh) (fun hh => Key.noConfusion hh)).2]
        exact htn4S.2
      rw [h2]
      rfl
    · intro i0 hch
      have hcons4 : ∀ j, 0 ≤ j → j ≤ 0 + i0 →
          mem' (stage4 cfg tid) (Key.children_task j) = true := by
        intro j hj1 hj2
        obtain ⟨ha1, ha2⟩ := stage4_lookup_ne cfg tid (Key.children_task j)
          (fun hh => Key.noConfusion hh) (fun hh => Key.noConfusion hh) (fun hh => Key.noConfusion hh) (fun hh => Key.noConfusion hh) (fun hh => Key.noConfusion hh)
        rw [mem'_of_lookups _ _ _ ha1 ha2]
        exact hch j (by omega)
      have hnoc4 : ∀ j, 0 ≤ j →
          mem' (stage4 cfg tid) (Key.children j) = false := by
        intro j hj1
        obtain ⟨ha1, ha2⟩ := stage4_lookup_ne cfg tid (Key.children j)
          (fun hh => Key.noConfusion hh) (fun hh => Key.noConfusion hh) (fun hh => Key.noConfusion hh) (fun hh => Key.noConfusion hh) (fun hh => Key.noConfusion hh)
        rw [mem'_of_lookups _ _ _ ha1 ha2]
        exact noChildrenKeys_mem' cfg hnc j
      have hxor4 : ∀ j, 0 ≤ j →
          hasScalar (stage4 cfg tid) (Key.children_task j) = false
          ∨ hasSection (stage4 cfg tid) (Key.children_task j) = false := by
        intro j hj1
        obtain ⟨ha1, ha2⟩ := stage4_lookup_ne cfg tid (Key.children_task j)
          (fun hh => Key.noConfusion hh) (fun hh => Key.noConfusion hh) (fun hh => Key.noConfusion hh) (fun hh => Key.noConfusion hh) (fun hh => Key.noConfusion hh)
        rw [hasScalar_of_lookup _ _ _ ha1, hasSection_of_lookup _ _ _ ha2]
        cases hx : hasScalar cfg (Key.children_task j) with
        | false => exact Or.inl rfl
        | true => exact Or.inr (nodup_scalar_not_section cfg _ hnd hx)
      have hfuel := children_count_le (stage4 cfg tid) i0
        (fun j hj => hcons4 j (by omega) (by omega))
      have h5 := renameChildren_spec i0 (stage4 cfg tid) 0
        ((stage4 cfg tid).scalars.length + (stage4 cfg tid).sections.length + 1)
        hcons4 hnoc4 hxor4 (by omega)
      simp only [Nat.zero_add] at h5
      have h5ch : mem' (stage5 cfg tid) (Key.children i0) = true := h5.1
      have h5ct : mem' (stage5 cfg tid) (Key.children_task i0) = false := h5.2
      obtain ⟨h7s, h7sec⟩ := stage7_lookup_of_5 cfg tid (Key.children i0)
        (fun hh => Key.noConfusion hh) (fun hh => Key.noConfusion hh)
      obtain ⟨h7s2, h7sec2⟩ := stage7_lookup_of_5 cfg tid
        (Key.children_task i0) (fun hh => Key.noConfusion hh) (fun hh => Key.noConfusion hh)
      constructor
      · unfold mem' hasScalar at h5ch ⊢
        rw [hab2 (Key.children i0) (fun hh => Key.noConfusion hh), h7s,
          hasSection_of_map_fst _ _ _ hab3,
          hasSection_of_lookup _ _ _ h7sec]
        exact h5ch
      · unfold mem' hasScalar at h5ct ⊢
        rw [hab2 (Key.children_task i0) (fun hh => Key.noConfusion hh), h7s2,
          hasSection_of_map_fst _ _ _ hab3,
          hasSection_of_lookup _ _ _ h7sec2]
        exact h5ct



open Convert in
/-- C9 counterexample: a section whose task_class is the known TASKS key
ComplexTask but on which update_task still raises ValueError and mutates the
section first, because the access_exs name a_b_c does not split on
underscore into exactly two parts. -/
theorem convert_update_task_renames_counterexample :
    Convert.tasksLookup "ComplexTask" = some "ecpy.ComplexTask" ∧
    (Convert.update_task (Convert.Sec.mk
        [(Convert.Key.task_class, Convert.CfgVal.str "ComplexTask"),
         (Convert.Key.task_name, Convert.CfgVal.str "root"),
         (Convert.Key.access_exs, Convert.CfgVal.axList ["a_b_c"])] [])).2
      = some Convert.PyErr.valueError := by
  refine ⟨rfl, ?_⟩
  have hfa : fixAccessExs (Sec.mk
      [(Key.name, CfgVal.str "root"),
       (Key.access_exs, CfgVal.axList ["a_b_c"]),
       (Key.task_id, CfgVal.str "ecpy.ComplexTask"),
       (Key.dep_type, CfgVal.str "ecpy.task")] []) "a_b_c" 1
      = Except.error PyErr.valueError := by
    rw [fixAccessExs]
    rfl
  have hff : fixFor (Sec.mk
      [(Key.name, CfgVal.str "root"),
       (Key.access_exs, CfgVal.axList ["a_b_c"]),
       (Key.task_id, CfgVal.str "ecpy.ComplexTask"),
       (Key.dep_type, CfgVal.str "ecpy.task")] []) ["a_b_c"]
      = Except.error PyErr.valueError := by
    rw [fixFor, hfa]
  have hab := accessBlock_fixFor_error (Sec.mk
      [(Key.name, CfgVal.str "root"),
       (Key.access_exs, CfgVal.axList ["a_b_c"]),
       (Key.task_id, CfgVal.str "ecpy.ComplexTask"),
       (Key.dep_type, CfgVal.str "ecpy.task")] []) ["a_b_c"]
    PyErr.valueError rfl rfl hff
  show (accessBlock (Sec.mk
      [(Key.name, CfgVal.str "root"),
       (Key.access_exs, CfgVal.axList ["a_b_c"]),
       (Key.task_id, CfgVal.str "ecpy.ComplexTask"),
       (Key.dep_type, CfgVal.str "ecpy.task")] [])).2 = some PyErr.valueError
  rw [hab]



open Convert in
/-- Witness: the theorem applied to a concrete two-scalar section with one
children_task_0 subsection and task_class BreakTask. -/
theorem convert_update_task_renames_witness :
    keysNodup (Sec.mk [(Key.task_class, CfgVal.str "BreakTask"),
        (Key.task_name, CfgVal.str "t")]
        [(Key.children_task 0, Sec.mk [] [])]) ∧
    hasScalar (Sec.mk [(Key.task_class, CfgVal.str "BreakTask"),
      (Key.task_name, CfgVal.str "t")]
      [(Key.children_task 0, Sec.mk [] [])]) Key.task_name = true ∧
    mem' (Sec.mk [(Key.task_class, CfgVal.str "BreakTask"),
      (Key.task_name, CfgVal.str "t")]
      [(Key.children_task 0, Sec.mk [] [])]) Key.name = false ∧
    noChildrenKeys (Sec.mk [(Key.task_class, CfgVal.str "BreakTask"),
      (Key.task_name, CfgVal.str "t")]
      [(Key.children_task 0, Sec.mk [] [])]) = true ∧
    axWF (Sec.mk [(Key.task_class, CfgVal.str "BreakTask"),
      (Key.task_name, CfgVal.str "t")]
      [(Key.children_task 0, Sec.mk [] [])]) = true ∧
    splitOK (Sec.mk [(Key.task_class, CfgVal.str "BreakTask"),
      (Key.task_name, CfgVal.str "t")]
      [(Key.children_task 0, Sec.mk [] [])]) = true ∧
    (update_task (Sec.mk [(Key.task_class, CfgVal.str "BreakTask"),
      (Key.task_name, CfgVal.str "t")]
      [(Key.children_task 0, Sec.mk [] [])])).2 ≠ some PyErr.valueError ∧
    lookupScalar (update_task (Sec.mk [(Key.task_class, CfgVal.str "BreakTask"),
      (Key.task_name, CfgVal.str "t")]
      [(Key.children_task 0, Sec.mk [] [])])).1 Key.task_id
      = some (CfgVal.str "ecpy.BreakTask") ∧
    mem' (update_task (Sec.mk [(Key.task_class, CfgVal.str "BreakTask"),
      (Key.task_name, CfgVal.str "t")]
      [(Key.children_task 0, Sec.mk [] [])])).1 (Key.children 0) = true ∧
    mem' (update_task (Sec.mk [(Key.task_class, CfgVal.str "BreakTask"),
      (Key.task_name, CfgVal.str "t")]
      [(Key.children_task 0, Sec.mk [] [])])).1 (Key.children_task 0) = false := by
  refine ⟨by unfold keysNodup; decide, by decide, by decide, by decide,
    by decide, by decide, ?_, ?_, ?_, ?_⟩
  · exact ((convert_update_task_renames (Sec.mk [(Key.task_class, CfgVal.str "BreakTask"),
      (Key.task_name, CfgVal.str "t")]
      [(Key.children_task 0, Sec.mk [] [])]) (by unfold keysNodup; decide)
      (by decide) (by decide)
      (by decide) (by decide) (by decide)).2 "ecpy.BreakTask" rfl).1
  · exact ((convert_update_task_renames (Sec.mk [(Key.task_class, CfgVal.str "BreakTask"),
      (Key.task_name, CfgVal.str "t")]
      [(Key.children_task 0, Sec.mk [] [])]) (by unfold keysNodup; decide)
      (by decide) (by decide)
      (by decide) (by decide) (by decide)).2 "ecpy.BreakTask" rfl).2.2.1
  · exact (((convert_update_task_renames (Sec.mk [(Key.task_class, CfgVal.str "BreakTask"),
      (Key.task_name, CfgVal.str "t")]
      [(Key.children_task 0, Sec.mk [] [])]) (by unfold keysNodup; decide)
      (by decide) (by decide)
      (by decide) (by decide) (by decide)).2 "ecpy.BreakTask" rfl).2.2.2.2.2.2 0
      (fun j hj => by
        have hj0 : j = 0 := by omega
        subst hj0
        decide)).1
  · exact (((convert_update_task_renames (Sec.mk [(Key.task_class, CfgVal.str "BreakTask"),
      (Key.task_name, CfgVal.str "t")]
      [(Key.children_task 0, Sec.mk [] [])]) (by unfold keysNodup; decide)
      (by decide) (by decide)
      (by decide) (by decide) (by decide)).2 "ecpy.BreakTask" rfl).2.2.2.2.2.2 0
      (fun j hj => by
        have hj0 : j = 0 := by omega
        subst hj0
        decide)).2
